import Mathlib

set_option maxHeartbeats 1000000
set_option maxRecDepth 10000

/-!
Verification development for the pollux LSP client
(src/lsp_client/client.py and src/lsp_client/async_reader.py).

The embedding works over lists of natural numbers: a Python str is its list of
Unicode codepoints, a Python bytes its list of byte values.  The JSON layer
models Python's json module with its default arguments as the client calls it
(json.dumps with ensure_ascii=True and the default separators, json.loads in
strict mode), restricted to integral numbers: every message this client builds
or consumes carries integer ids only, so floats (and the NaN/Infinity
extensions) are left out of the value grammar and rejected by the parser model.
-/

/-- Codepoint list of a Lean string literal, used to transliterate the Python
string constants appearing in the source. -/
def S (s : String) : List Nat := s.data.map Char.toNat

/-- JSON values as handled by Python's json module, with numbers restricted to
integers and strings as codepoint lists.  Objects are insertion-ordered
association lists, mirroring a Python dict. -/
inductive J where
  | null
  | bool (b : Bool)
  | num (n : Int)
  | str (s : List Nat)
  | arr (elems : List J)
  | obj (members : List (List Nat × J))

/-- Decimal digit codes of n, most significant first, prepended to acc.  The
fuel argument only serves termination; n + 1 always suffices. -/
def natDigitsAux : Nat → Nat → List Nat → List Nat
  | 0, _, acc => acc
  | fuel + 1, n, acc =>
      if n < 10 then (48 + n) :: acc
      else natDigitsAux fuel (n / 10) ((48 + n % 10) :: acc)

/-- Decimal rendering of a Nat, as Python str() renders len(content) inside the
f-string of send (client.py line 94). -/
def natDigits (n : Nat) : List Nat := natDigitsAux (n + 1) n []

/-- Lowercase hex digit code, as json.dumps emits in \uXXXX escapes. -/
def hexDigit (d : Nat) : Nat := if d < 10 then 48 + d else 87 + d

/-- Four-digit lowercase hex rendering of n < 0x10000. -/
def hex4 (n : Nat) : List Nat :=
  [hexDigit (n / 4096 % 16), hexDigit (n / 256 % 16), hexDigit (n / 16 % 16),
   hexDigit (n % 16)]

/-- Model of json.dumps' per-character escaping under the default
ensure_ascii=True (CPython's py_encode_basestring_ascii): two-character escapes
for quote, backslash, \b, \t, \n, \f, \r; other printable ASCII verbatim; every
remaining codepoint as \uXXXX, astral codepoints as a surrogate pair. -/
def escapeChar (c : Nat) : List Nat :=
  if c = 34 then [92, 34]
  else if c = 92 then [92, 92]
  else if c = 8 then [92, 98]
  else if c = 9 then [92, 116]
  else if c = 10 then [92, 110]
  else if c = 12 then [92, 102]
  else if c = 13 then [92, 114]
  else if 32 ≤ c ∧ c ≤ 126 then [c]
  else if c < 65536 then 92 :: 117 :: hex4 c
  else (92 :: 117 :: hex4 (55296 + (c - 65536) / 1024))
       ++ (92 :: 117 :: hex4 (56320 + (c - 65536) % 1024))

/-- Serialized JSON string literal: quote, escaped characters, quote. -/
def dumpStr (s : List Nat) : List Nat := 34 :: s.flatMap escapeChar ++ [34]

/-- Serialized integer (json.dumps of a Python int). -/
def intDumps (n : Int) : List Nat := (if n < 0 then [45] else []) ++ natDigits n.natAbs

mutual
/-- Model of json.dumps with its defaults (ensure_ascii=True, item separator
", " and key separator ": "), as called in client.py lines 93 and 110,
restricted to the value grammar of J. -/
def dumps : J → List Nat
  | .null => [110, 117, 108, 108]
  | .bool true => [116, 114, 117, 101]
  | .bool false => [102, 97, 108, 115, 101]
  | .num n => intDumps n
  | .str s => dumpStr s
  | .arr xs => 91 :: dumpsElems xs ++ [93]
  | .obj ms => 123 :: dumpsMembers ms ++ [125]
/-- Array elements joined by the default item separator ", ". -/
def dumpsElems : List J → List Nat
  | [] => []
  | [x] => dumps x
  | x :: y :: xs => dumps x ++ 44 :: 32 :: dumpsElems (y :: xs)
/-- Object members: escaped key, the default key separator ": ", value, and the
item separator ", " between members. -/
def dumpsMembers : List (List Nat × J) → List Nat
  | [] => []
  | [(k, v)] => dumpStr k ++ 58 :: 32 :: dumps v
  | (k, v) :: m :: ms => dumpStr k ++ 58 :: 32 :: dumps v ++ 44 :: 32 :: dumpsMembers (m :: ms)
end

/-- A codepoint a well-formed Python str may hold in a round-trippable message:
below 0x110000 and not a lone surrogate. -/
def validCP (c : Nat) : Bool := c < 1114112 && !(55296 ≤ c && c ≤ 57343)

/-- Strings whose every codepoint is valid. -/
def validStr (s : List Nat) : Bool := s.all validCP

mutual
/-- Valid message values: every string is surrogate-free Unicode and object
keys are pairwise distinct (as they necessarily are for a value originating
from a Python dict). -/
def validJ : J → Bool
  | .null => true
  | .bool _ => true
  | .num _ => true
  | .str s => validStr s
  | .arr xs => validElems xs
  | .obj ms => validMembers ms
/-- Validity of an element list. -/
def validElems : List J → Bool
  | [] => true
  | x :: xs => validJ x && validElems xs
/-- Validity of a member list, including key distinctness. -/
def validMembers : List (List Nat × J) → Bool
  | [] => true
  | (k, v) :: ms =>
      validStr k && validJ v && !(ms.any (fun p => p.1 == k)) && validMembers ms
end

/-- JSON whitespace as in Python's json decoder (space, tab, LF, CR). -/
def jWs (c : Nat) : Bool := c = 32 || c = 9 || c = 10 || c = 13

/-- Skip leading JSON whitespace. -/
def skipWs : List Nat → List Nat
  | [] => []
  | c :: r => if jWs c then skipWs r else c :: r

/-- ASCII decimal digit test. -/
def isDigitC (c : Nat) : Bool := 48 ≤ c && c ≤ 57

/-- Longest leading digit run and the remainder. -/
def takeDigits : List Nat → List Nat × List Nat
  | [] => ([], [])
  | c :: r =>
      if isDigitC c then
        let p := takeDigits r
        (c :: p.1, p.2)
      else ([], c :: r)

/-- Value of a digit run. -/
def digitsVal (ds : List Nat) : Nat := ds.foldl (fun a d => a * 10 + (d - 48)) 0

/-- Value of one hex digit character, either case, as int(c, 16) accepts. -/
def hexVal (c : Nat) : Option Nat :=
  if 48 ≤ c ∧ c ≤ 57 then some (c - 48)
  else if 97 ≤ c ∧ c ≤ 102 then some (c - 87)
  else if 65 ≤ c ∧ c ≤ 70 then some (c - 55)
  else none

/-- Value of a four-hex-digit escape payload. -/
def hexQuad (a b c d : Nat) : Option Nat := do
  let va ← hexVal a
  let vb ← hexVal b
  let vc ← hexVal c
  let vd ← hexVal d
  return ((va * 16 + vb) * 16 + vc) * 16 + vd

/-- Short escape table of the json string scanner (the BACKSLASH dict of
CPython's json.decoder): quote, backslash, slash, b, f, n, r, t. -/
def escTable (e : Nat) : Option Nat :=
  if e = 34 then some 34
  else if e = 92 then some 92
  else if e = 47 then some 47
  else if e = 98 then some 8
  else if e = 102 then some 12
  else if e = 110 then some 10
  else if e = 114 then some 13
  else if e = 116 then some 9
  else none

/-- Scan of one \uXXXX escape payload (after the backslash-u) including the
surrogate-pair lookahead of the json string scanner: four hex digits give a
unit h; a high surrogate followed by another escaped low surrogate merges into
one astral codepoint; a high surrogate followed by backslash-u and bad hex is
an error; any other unpaired surrogate stays a lone codepoint.  Returns the
codepoint and the remaining input. -/
def scanU : List Nat → Option (Nat × List Nat)
  | a :: b :: c :: d :: rest3 =>
    (match hexQuad a b c d with
     | none => none
     | some h =>
       if 55296 ≤ h ∧ h ≤ 56319 then
         match rest3 with
         | 92 :: 117 :: a2 :: b2 :: c2 :: d2 :: rest4 =>
           (match hexQuad a2 b2 c2 d2 with
            | none => none
            | some l =>
              if 56320 ≤ l ∧ l ≤ 57343 then
                some (65536 + (h - 55296) * 1024 + (l - 56320), rest4)
              else some (h, rest3))
         | 92 :: 117 :: _ => none
         | _ => some (h, rest3)
       else some (h, rest3))
  | _ => none

/-- Model of the json string scanner after the opening quote, in strict mode:
literal characters except quote, backslash and raw control characters; short
escapes; \uXXXX via scanU.  acc holds the parsed codepoints in reverse.  Fuel
only serves termination; one unit is spent per produced codepoint, so input
length + 1 always suffices. -/
def parseStringBody : Nat → List Nat → List Nat → Option (List Nat × List Nat)
  | 0, _, _ => none
  | _ + 1, _, [] => none
  | fuel + 1, acc, ch :: rest =>
    if ch = 34 then some (acc.reverse, rest)
    else if ch = 92 then
      match rest with
      | [] => none
      | e :: rest2 =>
        if e = 117 then
          match scanU rest2 with
          | some p => parseStringBody fuel (p.1 :: acc) p.2
          | none => none
        else
          match escTable e with
          | some ec => parseStringBody fuel (ec :: acc) rest2
          | none => none
    else if ch < 32 then none
    else parseStringBody fuel (ch :: acc) rest

/-- Integral fragment of the number scanner: a single 0 or a nonzero-led digit
run; a following point or exponent letter would start a float, which this
integral model rejects. -/
def parseNumTail (r : List Nat) : Option (Nat × List Nat) :=
  match takeDigits r with
  | ([], _) => none
  | (d :: ds, rest) =>
    if d = 48 ∧ ds ≠ [] then none
    else
      match rest with
      | [] => some (digitsVal (d :: ds), [])
      | c :: _ =>
        if c = 46 ∨ c = 101 ∨ c = 69 then none else some (digitsVal (d :: ds), rest)

/-- Integer scanning including the optional leading minus. -/
def parseNumber : List Nat → Option (Int × List Nat)
  | [] => none
  | c :: r =>
    if c = 45 then
      match parseNumTail r with
      | some (v, rest) => some (-(v : Int), rest)
      | none => none
    else
      match parseNumTail (c :: r) with
      | some (v, rest) => some ((v : Int), rest)
      | none => none

mutual
/-- Model of the json scanner's scan_once at a position where the decoder has
already allowed whitespace (json.loads skips whitespace before every value),
for the integral value grammar of J.  Fuel only serves termination; input
length + 1 always suffices. -/
def parseValue : Nat → List Nat → Option (J × List Nat)
  | 0, _ => none
  | fuel + 1, s =>
    match skipWs s with
    | [] => none
    | c :: r =>
      if c = 110 then
        match r with
        | 117 :: 108 :: 108 :: r2 => some (.null, r2)
        | _ => none
      else if c = 116 then
        match r with
        | 114 :: 117 :: 101 :: r2 => some (.bool true, r2)
        | _ => none
      else if c = 102 then
        match r with
        | 97 :: 108 :: 115 :: 101 :: r2 => some (.bool false, r2)
        | _ => none
      else if c = 34 then
        match parseStringBody (r.length + 1) [] r with
        | some (s0, r2) => some (.str s0, r2)
        | none => none
      else if c = 91 then
        match skipWs r with
        | [] => none
        | c2 :: r2 =>
          if c2 = 93 then some (.arr [], r2)
          else
            match parseItems fuel (c2 :: r2) with
            | some (xs, r3) => some (.arr xs, r3)
            | none => none
      else if c = 123 then
        match skipWs r with
        | [] => none
        | c2 :: r2 =>
          if c2 = 125 then some (.obj [], r2)
          else
            match parseMembers fuel (c2 :: r2) with
            | some (ms, r3) => some (.obj ms, r3)
            | none => none
      else if c = 45 ∨ isDigitC c then
        match parseNumber (c :: r) with
        | some (n, r2) => some (.num n, r2)
        | none => none
      else none
/-- One or more comma-separated array elements up to the closing bracket
(json.decoder's JSONArray loop; whitespace around separators allowed). -/
def parseItems : Nat → List Nat → Option (List J × List Nat)
  | 0, _ => none
  | fuel + 1, s =>
    match parseValue fuel s with
    | none => none
    | some (v, r) =>
      match skipWs r with
      | 93 :: r2 => some ([v], r2)
      | 44 :: r2 =>
        (match parseItems fuel r2 with
         | some (vs, r3) => some (v :: vs, r3)
         | none => none)
      | _ => none
/-- One or more key/value members up to the closing brace (the JSONObject
loop of json.decoder). -/
def parseMembers : Nat → List Nat → Option (List (List Nat × J) × List Nat)
  | 0, _ => none
  | fuel + 1, s =>
    match skipWs s with
    | 34 :: r =>
      (match parseStringBody (r.length + 1) [] r with
       | none => none
       | some (k, r1) =>
         match skipWs r1 with
         | 58 :: r2 =>
           (match parseValue fuel r2 with
            | none => none
            | some (v, r3) =>
              match skipWs r3 with
              | 125 :: r4 => some ([(k, v)], r4)
              | 44 :: r4 =>
                (match parseMembers fuel r4 with
                 | some (ms, r5) => some ((k, v) :: ms, r5)
                 | none => none)
              | _ => none)
         | _ => none)
    | _ => none
end

/-- Model of json.loads (client.py line 55): parse one value, then only
whitespace may remain. -/
def loads (s : List Nat) : Option J :=
  match parseValue (s.length + 1) s with
  | some (j, r) => if skipWs r = [] then some j else none
  | none => none

/-- UTF-8 encoding of one codepoint (str.encode() of the message string; the
strings the client encodes are pure ASCII since json.dumps keeps ensure_ascii,
so only the first branch is ever taken on them). -/
def utf8Char (c : Nat) : List Nat :=
  if c < 128 then [c]
  else if c < 2048 then [192 + c / 64, 128 + c % 64]
  else if c < 65536 then [224 + c / 4096, 128 + c / 64 % 64, 128 + c % 64]
  else [240 + c / 262144, 128 + c / 4096 % 64, 128 + c / 64 % 64, 128 + c % 64]

/-- UTF-8 encoding of a string. -/
def utf8Encode (s : List Nat) : List Nat := s.flatMap utf8Char

/-- Continuation-byte test for UTF-8. -/
def contB (b : Nat) : Bool := 128 ≤ b && b < 192

/-- Codepoint of a two-byte UTF-8 sequence. -/
def utf8Val2 (b b2 : Nat) : Nat := (b - 192) * 64 + (b2 - 128)

/-- Codepoint of a three-byte UTF-8 sequence. -/
def utf8Val3 (b b2 b3 : Nat) : Nat := (b - 224) * 4096 + (b2 - 128) * 64 + (b3 - 128)

/-- Codepoint of a four-byte UTF-8 sequence. -/
def utf8Val4 (b b2 b3 b4 : Nat) : Nat :=
  (b - 240) * 262144 + (b2 - 128) * 4096 + (b3 - 128) * 64 + (b4 - 128)

mutual
/-- Strict UTF-8 decoding of a byte list (the bytes.decode() calls of the
reader, client.py lines 45 and 54): rejects bad lead bytes, bad continuations,
overlong forms, surrogates and out-of-range codepoints. -/
def utf8Decode : List Nat → Option (List Nat)
  | [] => some []
  | b :: rest =>
    if b < 128 then
      match utf8Decode rest with
      | some cs => some (b :: cs)
      | none => none
    else if b < 194 then none
    else if b < 224 then utf8Tail2 b rest
    else if b < 240 then utf8Tail3 b rest
    else if b < 245 then utf8Tail4 b rest
    else none
/-- Continuation of a two-byte sequence. -/
def utf8Tail2 (b : Nat) : List Nat → Option (List Nat)
  | b2 :: rest =>
    if contB b2 then
      match utf8Decode rest with
      | some cs => some (utf8Val2 b b2 :: cs)
      | none => none
    else none
  | [] => none
/-- Continuation of a three-byte sequence (overlong and surrogate forms
rejected). -/
def utf8Tail3 (b : Nat) : List Nat → Option (List Nat)
  | b2 :: b3 :: rest =>
    if contB b2 ∧ contB b3 ∧ 2048 ≤ utf8Val3 b b2 b3 ∧
       ¬(55296 ≤ utf8Val3 b b2 b3 ∧ utf8Val3 b b2 b3 ≤ 57343) then
      match utf8Decode rest with
      | some cs => some (utf8Val3 b b2 b3 :: cs)
      | none => none
    else none
  | _ => none
/-- Continuation of a four-byte sequence (overlong and out-of-range forms
rejected). -/
def utf8Tail4 (b : Nat) : List Nat → Option (List Nat)
  | b2 :: b3 :: b4 :: rest =>
    if contB b2 ∧ contB b3 ∧ contB b4 ∧ 65536 ≤ utf8Val4 b b2 b3 b4 ∧
       utf8Val4 b b2 b3 b4 < 1114112 then
      match utf8Decode rest with
      | some cs => some (utf8Val4 b b2 b3 b4 :: cs)
      | none => none
    else none
  | _ => none
end

/-- ASCII fragment of str.lower(), total on the header bytes it is applied to. -/
def lowerChar (c : Nat) : Nat := if 65 ≤ c ∧ c ≤ 90 then c + 32 else c

/-- Python str.lower() on a codepoint list (ASCII fragment). -/
def pyLower (s : List Nat) : List Nat := s.map lowerChar

/-- Python str.strip() whitespace test (ASCII fragment). -/
def stripWsC (c : Nat) : Bool := c = 32 || c = 9 || c = 10 || c = 13 || c = 11 || c = 12

/-- Python str.strip(): drop whitespace from both ends. -/
def pyStrip (s : List Nat) : List Nat :=
  ((s.dropWhile stripWsC).reverse.dropWhile stripWsC).reverse

/-- Model of Python int(str): optional sign then a nonempty digit run.  The
underscore-grouping extension of int() is not modelled; no header value this
client parses contains one. -/
def pyInt (s : List Nat) : Option Int :=
  match pyStrip s with
  | [] => none
  | c :: r =>
    if c = 43 then (if r ≠ [] ∧ r.all isDigitC then some ((digitsVal r : Nat) : Int) else none)
    else if c = 45 then
      (if r ≠ [] ∧ r.all isDigitC then some (-((digitsVal r : Nat) : Int)) else none)
    else (if (c :: r).all isDigitC then some ((digitsVal (c :: r) : Nat) : Int) else none)

/-- Prepend a character to the first piece of a split result. -/
def consHead (c : Nat) : List (List Nat) → List (List Nat)
  | [] => [[c]]
  | h :: t => (c :: h) :: t

/-- Python header_str.split on the two-character CRLF separator
(client.py line 47). -/
def splitCRLF : List Nat → List (List Nat)
  | [] => [[]]
  | [c] => [[c]]
  | c :: d :: r =>
    if c = 13 ∧ d = 10 then [] :: splitCRLF r
    else consHead c (splitCRLF (d :: r))

/-- Python line.split on a colon; client.py line 49 takes element 1 of it. -/
def splitColon : List Nat → List (List Nat)
  | [] => [[]]
  | c :: r => if c = 58 then [] :: splitColon r else consHead c (splitColon r)

/-- Everything after the first colon: line.split(sep, 1)[1] as used by
async_reader.py line 78; none models the IndexError when no colon exists. -/
def afterColon1 : List Nat → Option (List Nat)
  | [] => none
  | c :: r => if c = 58 then some r else afterColon1 r

/-- Model of stream.readline() on buffered bytes: everything up to and
including the first newline, or the whole remainder at end of input. -/
def readLine : List Nat → List Nat × List Nat
  | [] => ([], [])
  | c :: r =>
    if c = 10 then ([10], r)
    else
      let p := readLine r
      (c :: p.1, p.2)

/-- Header accumulation loop of read_stream (client.py lines 35-42): readline
until the accumulated block ends with CRLFCRLF; none is the EOF return.  Fuel
only serves termination; length + 1 suffices since every line is nonempty. -/
def readHeadersAux : Nat → List Nat → List Nat → Option (List Nat × List Nat)
  | 0, _, _ => none
  | fuel + 1, acc, s =>
    let p := readLine s
    if p.1 = [] then none
    else
      if [13, 10, 13, 10].isSuffixOf (acc ++ p.1) then some (acc ++ p.1, p.2)
      else readHeadersAux fuel (acc ++ p.1) p.2

/-- Header block acquisition for one frame. -/
def readHeaders (s : List Nat) : Option (List Nat × List Nat) :=
  readHeadersAux (s.length + 1) [] s

/-- Lowercased header key the readers scan for. -/
def clKey : List Nat := S ("content-length:")

/-- Content-Length extraction of client.py lines 46-50: the first header line
whose lowercase form starts with the key wins; some 0 when no line matches
(content_length keeps its initial value); none models the ValueError raised by
int() on a non-numeric value, which aborts the whole frame into the
except-print branch. -/
def clientContentLength : List (List Nat) → Option Int
  | [] => some 0
  | l :: ls =>
    if clKey.isPrefixOf (pyLower l) then
      match splitColon l with
      | _ :: v :: _ => pyInt (pyStrip v)
      | _ => none
    else clientContentLength ls

/-- Line scan of AsyncStreamReader._parse_content_length: first matching line,
value after the first colon; a ValueError from int() is swallowed by the
enclosing try and the function returns 0. -/
def asyncCLLines : List (List Nat) → Int
  | [] => 0
  | l :: ls =>
    if clKey.isPrefixOf (pyLower l) then
      match afterColon1 l with
      | some v => (pyInt (pyStrip v)).getD 0
      | none => 0
    else asyncCLLines ls

/-- Model of AsyncStreamReader._parse_content_length (async_reader.py lines
72-81): decode the headers and scan the lines; every failure path
(UnicodeDecodeError, ValueError, or no matching line) yields 0 — nothing is
ever signalled. -/
def asyncParseContentLength (headers : List Nat) : Int :=
  match utf8Decode headers with
  | some hstr => asyncCLLines (splitCRLF hstr)
  | none => 0

/-- Characters of the f-string "Content-Length: {len(content)}\r\n\r\n{content}"
up to the length (client.py lines 94 and 111). -/
def clHeader : List Nat := S ("Content-Length: ")

/-- The message string send/send_notification build before .encode(): header
with the CHARACTER length of the serialized payload, the blank line, then the
payload text. -/
def mkFrameStr (content : List Nat) : List Nat :=
  clHeader ++ natDigits content.length ++ [13, 10, 13, 10] ++ content

/-- One Python dict insertion: an existing key keeps its position and takes
the new value; a new key is appended. -/
def dictInsert (base : List (List Nat × J)) (k : List Nat) (v : J) : List (List Nat × J) :=
  if base.any (fun p => p.1 == k) then base.map (fun p => if p.1 == k then (k, v) else p)
  else base ++ [(k, v)]

/-- Merging a dict literal with a **payload expansion. -/
def dictMerge (base addl : List (List Nat × J)) : List (List Nat × J) :=
  addl.foldl (fun acc p => dictInsert acc p.1 p.2) base

/-- The request dict of send (client.py lines 87-91): jsonrpc and the fresh id
first, then the payload merged with dict-literal semantics — a payload key
repeating an earlier key overrides its value in place, which is what lets a
payload-supplied id clobber req_id. -/
def mkRequest (reqId : Int) (payload : List (List Nat × J)) : List (List Nat × J) :=
  dictMerge [(S ("jsonrpc"), J.str (S ("2.0"))), (S ("id"), J.num reqId)] payload

/-- The notification dict of send_notification (client.py lines 105-108). -/
def mkNotif (payload : List (List Nat × J)) : List (List Nat × J) :=
  dictMerge [(S ("jsonrpc"), J.str (S ("2.0")))] payload

/-- Events a session operation emits, in program order: registering an entry
in the in-flight future map, and writing bytes to the child's stdin. -/
inductive Ev where
  | register (k : Int)
  | write (bytes : List Nat)
deriving DecidableEq

/-- Observable state of one LSPClient: the request-id counter, the keys of the
_inflight future map, all bytes written to the child's stdin, the ordered
register/write event trace, resolution events delivered to awaiting callers
(future key paired with the response that fulfilled it), error prints of the
reader's except branch, json.loads attempts, warning prints of
send_notification's timeout branch, and whether _notification_event is set. -/
structure CState where
  requestId : Int := 0
  inflight : List Int := []
  written : List Nat := []
  trace : List Ev := []
  delivered : List (Int × J) := []
  errorLogs : Nat := 0
  loadsAttempts : Nat := 0
  notifWarnLogs : Nat := 0
  notifEventSet : Bool := false

/-- The state of a freshly constructed client (client.py lines 11-24):
request_id is 0, the in-flight map empty, the notification event unset. -/
def initState : CState := {}

/-- get_next_id (client.py lines 78-80). -/
def get_next_id (st : CState) : Int × CState :=
  (st.requestId + 1, { st with requestId := st.requestId + 1 })

/-- send (client.py lines 82-99) up to the await: allocate the next id,
register the caller's future in _inflight, build the request dict, serialize,
frame and write to stdin (stdin always exists: the process is spawned with
stdin=PIPE).  Returns the key of the future the caller then awaits. -/
def send (payload : List (List Nat × J)) (st : CState) : Int × CState :=
  let p := get_next_id st
  let reqId := p.1
  let st1 := p.2
  let st2 := { st1 with inflight := st1.inflight ++ [reqId],
                        trace := st1.trace ++ [Ev.register reqId] }
  let content := dumps (J.obj (mkRequest reqId payload))
  let frame := utf8Encode (mkFrameStr content)
  let st3 := { st2 with written := st2.written ++ frame,
                        trace := st2.trace ++ [Ev.write frame] }
  (reqId, st3)

/-- The hover payload (client.py lines 226-238): no id and no jsonrpc key. -/
def hoverPayload (uri : List Nat) (line char : Int) : List (List Nat × J) :=
  [(S ("method"), J.str (S ("textDocument/hover"))),
   (S ("params"), J.obj [
      (S ("textDocument"), J.obj [(S ("uri"), J.str uri)]),
      (S ("position"), J.obj [(S ("line"), J.num line), (S ("character"), J.num char)])])]

/-- hover (client.py lines 226-238). -/
def hover (uri : List Nat) (line char : Int) (st : CState) : Int × CState :=
  send (hoverPayload uri line char) st

/-- goto_definition (client.py lines 210-224): unlike hover, its payload
carries BOTH a jsonrpc key and its own freshly drawn id — get_next_id runs
once while building the payload and once more inside send. -/
def goto_definition (uri : List Nat) (line char : Int) (st : CState) : Int × CState :=
  let p := get_next_id st
  let payloadId := p.1
  let st1 := p.2
  let payload :=
    [(S ("jsonrpc"), J.str (S ("2.0"))),
     (S ("id"), J.num payloadId),
     (S ("method"), J.str (S ("textDocument/definition"))),
     (S ("params"), J.obj [
        (S ("textDocument"), J.obj [(S ("uri"), J.str uri)]),
        (S ("position"), J.obj [(S ("line"), J.num line), (S ("character"), J.num char)])])]
  send payload st1

/-- dict.get of a parsed message object: last binding wins, as in the Python
dict the json decoder builds. -/
def jGet (ms : List (List Nat × J)) (key : List Nat) : Option J :=
  (ms.reverse.find? (fun p => p.1 == key)).map (fun p => p.2)

/-- Lines 57-63 of client.py applied to one decoded message, together with
_resolve_future (lines 27-30): read the id with dict.get; when it is a
registered in-flight key, pop the entry and fulfil that caller's future with
the whole message.  A decode that produced a non-dict makes the .get call
raise AttributeError, landing in the except-print branch. -/
def resolveMsg (m : J) (st : CState) : CState :=
  match m with
  | .obj ms =>
    (match jGet ms (S ("id")) with
     | some (J.num k) =>
       if k ∈ st.inflight then
         { st with inflight := st.inflight.erase k,
                   delivered := st.delivered ++ [(k, J.obj ms)] }
       else st
     | _ => st)
  | _ => { st with errorLogs := st.errorLogs + 1 }

/-- One iteration of read_stream's outer loop (client.py lines 34-66) on
buffered bytes: acquire a header block (none = the EOF return), parse the
declared length, read exactly that many body bytes, decode, json.loads, and
resolve a registered future; every exception of the try block lands in the
except-print branch and the loop continues with the remaining bytes. -/
def readStep (s : List Nat) (st : CState) : Option (List Nat × CState) :=
  match readHeaders s with
  | none => none
  | some (hdrs, rest) =>
    match utf8Decode hdrs with
    | none => some (rest, { st with errorLogs := st.errorLogs + 1 })
    | some hstr =>
      match clientContentLength (splitCRLF hstr) with
      | none => some (rest, { st with errorLogs := st.errorLogs + 1 })
      | some n =>
        if 0 < n then
          match utf8Decode (rest.take n.toNat) with
          | none => some (rest.drop n.toNat, { st with errorLogs := st.errorLogs + 1 })
          | some bstr =>
            match loads bstr with
            | none =>
                some (rest.drop n.toNat,
                      { st with loadsAttempts := st.loadsAttempts + 1,
                                errorLogs := st.errorLogs + 1 })
            | some m =>
                some (rest.drop n.toNat,
                      resolveMsg m { st with loadsAttempts := st.loadsAttempts + 1 })
        else some (rest, st)

/-- read_stream's loop (client.py lines 33-66); _start_reader starts one such
loop on stdout and ANOTHER INSTANCE OF THE SAME FUNCTION on stderr (lines
68-76).  Fuel bounds the number of frames processed; the loop returns at EOF
regardless of remaining fuel. -/
def read_stream : Nat → List Nat → CState → CState
  | 0, _, st => st
  | fuel + 1, s, st =>
    match readStep s st with
    | none => st
    | some p => read_stream fuel p.1 p.2

/-- Outcome of send_notification's bounded wait. -/
inductive NotifOutcome where
  | acknowledged
  | timedOutLogged
deriving DecidableEq

/-- send_notification (client.py lines 102-120): install a FRESH (hence unset)
asyncio.Event, frame and write the notification, then wait up to 0.5 s on the
event.  arrivals are whatever bytes the server produces during that window,
drained concurrently by the reader; the wait completes early only if something
sets the event.  A TimeoutError is caught: a warning is printed and the call
still returns normally. -/
def send_notification (payload : List (List Nat × J)) (arrivals : List Nat)
    (fuel : Nat) (st : CState) : CState × NotifOutcome :=
  let st1 := { st with notifEventSet := false }
  let content := dumps (J.obj (mkNotif payload))
  let frame := utf8Encode (mkFrameStr content)
  let st2 := { st1 with written := st1.written ++ frame,
                        trace := st1.trace ++ [Ev.write frame] }
  let st3 := read_stream fuel arrivals st2
  if st3.notifEventSet then (st3, NotifOutcome.acknowledged)
  else ({ st3 with notifWarnLogs := st3.notifWarnLogs + 1 }, NotifOutcome.timedOutLogged)

/-- Payload of the first follow-up notification of the handshake
(client.py lines 174-177). -/
def initializedPayload : List (List Nat × J) :=
  [(S ("method"), J.str (S ("initialized"))), (S ("params"), J.obj [])]

/-- Payload of the workspace-folder registration notification
(client.py lines 179-190). -/
def workspaceFoldersPayload (uri nm : List Nat) : List (List Nat × J) :=
  [(S ("method"), J.str (S ("workspace/didChangeWorkspaceFolders"))),
   (S ("params"), J.obj [
     (S ("event"), J.obj [
       (S ("added"), J.arr [J.obj [(S ("uri"), J.str uri), (S ("name"), J.str nm)]]),
       (S ("removed"), J.arr [])])])]

/-- The wire frame the client emits for request dict m: header block plus
UTF-8 encoded body (client.py lines 93-96). -/
def encodeMessage (m : J) : List Nat := utf8Encode (mkFrameStr (dumps m))

/-- The frame decode read_stream performs on one frame (client.py lines
35-55): header block, declared length, exactly that many body bytes, UTF-8
decode, json.loads. -/
def decodeOneFrame (s : List Nat) : Option J :=
  match readHeaders s with
  | none => none
  | some (hdrs, rest) =>
    match utf8Decode hdrs with
    | none => none
    | some hstr =>
      match clientContentLength (splitCRLF hstr) with
      | none => none
      | some n =>
        if 0 < n then
          match utf8Decode (rest.take n.toNat) with
          | none => none
          | some bstr => loads bstr
        else none

/-- Character classes that may legally follow a serialized number without
extending it; every separator the serializer emits after a value qualifies.
Used to state the parser round-trip. -/
def numSafe : List Nat → Bool
  | [] => true
  | c :: _ => !(isDigitC c || c = 46 || c = 101 || c = 69)

/-- A minimal well-formed response object carrying the given id, as a server
would echo for a request with that id. -/
def respMsg (k : Int) : J := J.obj [(S ("id"), J.num k), (S ("result"), J.null)]

/-- A header block declaring a non-numeric length. -/
def badLenHdr : List Nat := S ("Content-Length: abc") ++ [13, 10, 13, 10]

/-- A header block with no declared-length line at all. -/
def noLenHdr : List Nat := S ("X-Powered-By: node") ++ [13, 10, 13, 10]

/-- A header block declaring length zero. -/
def zeroLenHdr : List Nat := S ("Content-Length: 0") ++ [13, 10, 13, 10]

/-- Example document URI used in the concrete runs below. -/
def uri0 : List Nat := S ("file:///t/foo.py")

/-- The client-state fields the reader loop never touches (stdin writes, the
event trace, the id counter, notification warnings, the notification event),
bundled for the preservation lemmas. -/
def envObs (st : CState) : List Nat × List Ev × Int × Nat × Bool :=
  (st.written, st.trace, st.requestId, st.notifWarnLogs, st.notifEventSet)

/-! ### Digit rendering and parsing -/

theorem natDigitsAux_congr (n : Nat) : ∀ f1 f2 acc, n < f1 → n < f2 →
    natDigitsAux f1 n acc = natDigitsAux f2 n acc := by
  induction n using Nat.strongRecOn with
  | _ n ih =>
    intro f1 f2 acc h1 h2
    match f1, f2 with
    | g1 + 1, g2 + 1 =>
      simp only [natDigitsAux]
      by_cases h : n < 10
      · simp [h]
      · simp only [if_neg h]
        exact ih (n / 10) (by omega) g1 g2 _ (by omega) (by omega)

theorem natDigitsAux_acc : ∀ fuel n acc,
    natDigitsAux fuel n acc = natDigitsAux fuel n [] ++ acc := by
  intro fuel
  induction fuel with
  | zero => intro n acc; simp [natDigitsAux]
  | succ f ih =>
    intro n acc
    simp only [natDigitsAux]
    by_cases h : n < 10
    · simp [h]
    · simp only [if_neg h]
      rw [ih (n / 10) ((48 + n % 10) :: acc), ih (n / 10) [48 + n % 10]]
      simp

theorem natDigits_step (n : Nat) :
    natDigits n = (if n < 10 then [] else natDigits (n / 10)) ++ [48 + n % 10] := by
  by_cases h : n < 10
  · simp only [natDigits, natDigitsAux, if_pos h, List.nil_append]
    rw [Nat.mod_eq_of_lt h]
  · simp only [natDigits, natDigitsAux, if_neg h]
    rw [natDigitsAux_acc]
    congr 1
    exact natDigitsAux_congr (n / 10) n (n / 10 + 1) [] (by omega) (by omega)

theorem natDigits_digit (n : Nat) : ∀ d ∈ natDigits n, 48 ≤ d ∧ d ≤ 57 := by
  induction n using Nat.strongRecOn with
  | _ n ih =>
    intro d hd
    rw [natDigits_step] at hd
    rcases List.mem_append.mp hd with h | h
    · by_cases h10 : n < 10
      · simp [h10] at h
      · exact ih (n / 10) (by omega) d (by simpa [h10] using h)
    · have : d = 48 + n % 10 := by simpa using h
      omega

theorem natDigits_ne_nil (n : Nat) : natDigits n ≠ [] := by
  rw [natDigits_step]; simp

theorem natDigits_cons (n : Nat) : ∃ d t, natDigits n = d :: t ∧ isDigitC d = true := by
  match h : natDigits n with
  | [] => exact absurd h (natDigits_ne_nil n)
  | d :: t =>
    have hd := natDigits_digit n d (h ▸ List.mem_cons_self ..)
    refine ⟨d, t, rfl, ?_⟩
    simp only [isDigitC, Bool.and_eq_true, decide_eq_true_eq]
    omega

theorem natDigits_head48 (n : Nat) : ∀ ds, natDigits n = 48 :: ds → n = 0 := by
  induction n using Nat.strongRecOn with
  | _ n ih =>
    intro ds h
    rw [natDigits_step] at h
    by_cases h10 : n < 10
    · simp only [if_pos h10, List.nil_append, List.cons.injEq] at h
      omega
    · rw [if_neg h10] at h
      obtain ⟨d, t, hdt, _⟩ := natDigits_cons (n / 10)
      rw [hdt] at h
      simp only [List.cons_append, List.cons.injEq] at h
      have := ih (n / 10) (by omega) t (by rw [hdt, h.1])
      omega

theorem digitsVal_natDigits : ∀ n, digitsVal (natDigits n) = n := by
  intro n
  induction n using Nat.strongRecOn with
  | _ n ih =>
    rw [natDigits_step]
    by_cases h : n < 10
    · simp only [if_pos h, List.nil_append, digitsVal, List.foldl_cons, List.foldl_nil]
      omega
    · rw [if_neg h]
      have hv := ih (n / 10) (by omega)
      simp only [digitsVal, List.foldl_append, List.foldl_cons, List.foldl_nil] at *
      rw [hv]
      omega

/-! ### Python strip and int -/

theorem dropWhile_eq_self_of (p : Nat → Bool) (s : List Nat) (h : ∀ c ∈ s, p c = false) :
    s.dropWhile p = s := by
  cases s with
  | nil => rfl
  | cons c r => simp [List.dropWhile_cons, h c (by simp)]

theorem pyStrip_eq_self (s : List Nat) (h : ∀ c ∈ s, stripWsC c = false) : pyStrip s = s := by
  unfold pyStrip
  rw [dropWhile_eq_self_of _ _ h, dropWhile_eq_self_of, List.reverse_reverse]
  intro c hc
  exact h c (by simpa using hc)

theorem pyStrip_space (s : List Nat) (h : ∀ c ∈ s, stripWsC c = false) :
    pyStrip (32 :: s) = s := by
  unfold pyStrip
  have h32 : stripWsC 32 = true := rfl
  rw [List.dropWhile_cons, if_pos h32, dropWhile_eq_self_of _ _ h,
      dropWhile_eq_self_of, List.reverse_reverse]
  intro c hc
  exact h c (by simpa using hc)

theorem digit_not_stripWs (d : Nat) (h : isDigitC d = true) : stripWsC d = false := by
  simp only [isDigitC, Bool.and_eq_true, decide_eq_true_eq] at h
  simp only [stripWsC, Bool.or_eq_false_iff, decide_eq_false_iff_not]
  omega

theorem pyInt_digits (ds : List Nat) (hds : ∀ d ∈ ds, isDigitC d = true) (hne : ds ≠ []) :
    pyInt ds = some ((digitsVal ds : Nat) : Int) := by
  have hs : pyStrip ds = ds := pyStrip_eq_self ds (fun c hc => digit_not_stripWs c (hds c hc))
  unfold pyInt
  rw [hs]
  match ds, hne with
  | d :: r, _ =>
    have hd := hds d (by simp)
    simp only [isDigitC, Bool.and_eq_true, decide_eq_true_eq] at hd
    have h1 : ¬(d = 43) := by omega
    have h2 : ¬(d = 45) := by omega
    have hall : (d :: r).all isDigitC = true := List.all_eq_true.mpr hds
    simp [h1, h2, hall]

theorem pyInt_natDigits (n : Nat) : pyInt (natDigits n) = some (n : Int) := by
  rw [pyInt_digits _ (fun d hd => by
        have := natDigits_digit n d hd
        simp only [isDigitC, Bool.and_eq_true, decide_eq_true_eq]
        omega)
      (natDigits_ne_nil n),
    digitsVal_natDigits]

/-! ### ASCII and UTF-8 -/

theorem utf8Char_ascii (c : Nat) (h : c < 128) : utf8Char c = [c] := by
  simp [utf8Char, h]

theorem utf8Encode_ascii (s : List Nat) (h : ∀ c ∈ s, c < 128) : utf8Encode s = s := by
  induction s with
  | nil => rfl
  | cons c r ih =>
    simp only [utf8Encode, List.flatMap_cons] at *
    rw [utf8Char_ascii c (h c (by simp)), ih (fun x hx => h x (by simp [hx]))]
    rfl

theorem utf8Encode_length_ascii (s : List Nat) (h : ∀ c ∈ s, c < 128) :
    (utf8Encode s).length = s.length := by
  rw [utf8Encode_ascii s h]

theorem utf8Decode_ascii (s : List Nat) (h : ∀ c ∈ s, c < 128) : utf8Decode s = some s := by
  induction s with
  | nil => rfl
  | cons c r ih =>
    have hc : c < 128 := h c (by simp)
    have h2 := ih (fun x hx => h x (by simp [hx]))
    simp only [utf8Decode, if_pos hc, h2]

theorem utf8Encode_append (a b : List Nat) :
    utf8Encode (a ++ b) = utf8Encode a ++ utf8Encode b := by
  simp [utf8Encode]

/-! ### Line reading, header blocks, splitting -/

theorem skipWs_not (c : Nat) (r : List Nat) (h : jWs c = false) : skipWs (c :: r) = c :: r := by
  simp [skipWs, h]

theorem readLine_append (X Y : List Nat) (h : 10 ∉ X) :
    readLine (X ++ 10 :: Y) = (X ++ [10], Y) := by
  induction X with
  | nil => simp [readLine]
  | cons c r ih =>
    have hc : ¬(c = 10) := fun e => h (by simp [e])
    simp only [List.cons_append, readLine, if_neg hc, List.append_eq]
    rw [ih (fun hm => h (by simp [hm]))]

theorem isPrefixOf_self_append (l t : List Nat) : l.isPrefixOf (l ++ t) = true := by
  induction l with
  | nil => simp [List.isPrefixOf]
  | cons c r ih => simp [List.isPrefixOf, ih]

theorem suffix4_false (A : List Nat) (h : 10 ∉ A) :
    [13, 10, 13, 10].isSuffixOf (A ++ [13, 10]) = false := by
  unfold List.isSuffixOf
  rw [List.reverse_append]
  cases hA : A.reverse with
  | nil => simp [List.isPrefixOf]
  | cons a t =>
    have ha : ¬(a = 10) := by
      intro e
      apply h
      have h1 : a ∈ A.reverse := by simp [hA]
      rw [List.mem_reverse] at h1
      exact e ▸ h1
    simp only [List.reverse_cons, List.reverse_nil, List.nil_append, List.cons_append,
      List.isPrefixOf, List.append_nil]
    simp [beq_iff_eq]
    omega

theorem suffix4_true (A : List Nat) :
    [13, 10, 13, 10].isSuffixOf (A ++ [13, 10, 13, 10]) = true := by
  unfold List.isSuffixOf
  rw [List.reverse_append]
  exact isPrefixOf_self_append _ _

theorem readHeadersAux_block (A Y : List Nat) (h : 10 ∉ A) :
    ∀ fuel, 2 ≤ fuel →
      readHeadersAux fuel [] (A ++ [13, 10, 13, 10] ++ Y) = some (A ++ [13, 10, 13, 10], Y) := by
  intro fuel hf
  match fuel, hf with
  | f + 2, _ =>
    have h13 : (10 : Nat) ∉ A ++ [13] := by
      intro hm
      rcases List.mem_append.mp hm with hm | hm
      · exact h hm
      · simp at hm
    have e1 : A ++ [13, 10, 13, 10] ++ Y = (A ++ [13]) ++ 10 :: (13 :: 10 :: Y) := by simp
    rw [e1]
    simp only [readHeadersAux, readLine_append _ _ h13]
    have hne : ¬((A ++ [13]) ++ [10] = ([] : List Nat)) := by simp
    rw [if_neg hne]
    have e2 : [] ++ ((A ++ [13]) ++ [10]) = A ++ [13, 10] := by simp
    rw [e2]
    rw [suffix4_false A h]
    simp only [Bool.false_eq_true, if_false]
    have e3 : (13 : Nat) :: 10 :: Y = [13] ++ 10 :: Y := by simp
    rw [e3]
    simp only [readHeadersAux, readLine_append [13] Y (by simp)]
    have hne2 : ¬([13] ++ [10] = ([] : List Nat)) := by simp
    rw [if_neg hne2]
    have e4 : A ++ [13, 10] ++ ([13] ++ [10]) = A ++ [13, 10, 13, 10] := by simp
    rw [e4, suffix4_true A]
    simp

theorem readHeaders_block (A Y : List Nat) (h : 10 ∉ A) :
    readHeaders (A ++ [13, 10, 13, 10] ++ Y) = some (A ++ [13, 10, 13, 10], Y) := by
  unfold readHeaders
  apply readHeadersAux_block A Y h
  simp only [List.length_append, List.length_cons]
  omega

theorem splitCRLF_crlf (B : List Nat) : splitCRLF (13 :: 10 :: B) = [] :: splitCRLF B := by
  simp only [splitCRLF]
  norm_num

theorem splitCRLF_skip (c d : Nat) (r : List Nat) (h : ¬(c = 13 ∧ d = 10)) :
    splitCRLF (c :: d :: r) = consHead c (splitCRLF (d :: r)) := by
  simp only [splitCRLF]
  rw [if_neg h]

theorem splitCRLF_append (A B : List Nat) (h : 13 ∉ A) :
    splitCRLF (A ++ 13 :: 10 :: B) = A :: splitCRLF B := by
  induction A with
  | nil => simpa using splitCRLF_crlf B
  | cons a A2 ih =>
    have ha : ¬(a = 13) := fun e => h (by simp [e])
    have htail := ih (fun hm => h (by simp [hm]))
    cases A2 with
    | nil =>
      show splitCRLF (a :: 13 :: 10 :: B) = [a] :: splitCRLF B
      rw [splitCRLF_skip a 13 (10 :: B) (by simp [ha]), splitCRLF_crlf B]
      simp [consHead]
    | cons a2 A3 =>
      show splitCRLF (a :: a2 :: (A3 ++ 13 :: 10 :: B)) = (a :: a2 :: A3) :: splitCRLF B
      rw [splitCRLF_skip a a2 _ (by simp [ha])]
      have e1 : a2 :: (A3 ++ 13 :: 10 :: B) = (a2 :: A3) ++ 13 :: 10 :: B := by simp
      rw [e1, htail]
      simp [consHead]

theorem splitColon_no (A : List Nat) (h : 58 ∉ A) : splitColon A = [A] := by
  induction A with
  | nil => rfl
  | cons c r ih =>
    have hc : ¬(c = 58) := fun e => h (by simp [e])
    rw [splitColon, if_neg hc, ih (fun hm => h (by simp [hm]))]
    simp [consHead]

theorem splitColon_append (A B : List Nat) (h : 58 ∉ A) :
    splitColon (A ++ 58 :: B) = A :: splitColon B := by
  induction A with
  | nil => simp [splitColon]
  | cons c r ih =>
    have hc : ¬(c = 58) := fun e => h (by simp [e])
    simp only [List.cons_append, splitColon, if_neg hc, List.append_eq]
    rw [ih (fun hm => h (by simp [hm]))]
    simp [consHead]

theorem pyLower_digits (ds : List Nat) (h : ∀ d ∈ ds, isDigitC d = true) :
    pyLower ds = ds := by
  induction ds with
  | nil => rfl
  | cons d r ih =>
    have hd := h d (by simp)
    simp only [isDigitC, Bool.and_eq_true, decide_eq_true_eq] at hd
    simp only [pyLower, List.map_cons]
    rw [show lowerChar d = d by simp only [lowerChar]; rw [if_neg (by omega)]]
    have := ih (fun x hx => h x (by simp [hx]))
    simp only [pyLower] at this
    rw [this]

theorem clientCL_header (n : Nat) :
    clientContentLength (splitCRLF (clHeader ++ natDigits n ++ [13, 10, 13, 10]))
      = some (n : Int) := by
  have hdig : ∀ d ∈ natDigits n, isDigitC d = true := fun d hd => by
    have := natDigits_digit n d hd
    simp only [isDigitC, Bool.and_eq_true, decide_eq_true_eq]
    omega
  have h13 : 13 ∉ clHeader ++ natDigits n := by
    intro hm
    rcases List.mem_append.mp hm with hm | hm
    · revert hm; decide
    · have := natDigits_digit n 13 hm; omega
  have e1 : clHeader ++ natDigits n ++ [13, 10, 13, 10]
      = (clHeader ++ natDigits n) ++ 13 :: 10 :: [13, 10] := by simp
  rw [e1, splitCRLF_append _ _ h13]
  have e2 : splitCRLF [13, 10] = [[], []] := rfl
  rw [e2]
  unfold clientContentLength
  have hlow : pyLower (clHeader ++ natDigits n) = clKey ++ 32 :: natDigits n := by
    unfold pyLower
    rw [List.map_append]
    have : List.map lowerChar clHeader = clKey ++ [32] := by decide
    rw [this]
    have := pyLower_digits (natDigits n) hdig
    unfold pyLower at this
    rw [this]
    simp
  rw [hlow]
  have e3 : clKey ++ 32 :: natDigits n = clKey ++ ([32] ++ natDigits n) := by simp
  rw [e3, isPrefixOf_self_append]
  simp only [if_true]
  have e4 : clHeader ++ natDigits n = S ("Content-Length") ++ 58 :: (32 :: natDigits n) := by
    have : clHeader = S ("Content-Length") ++ [58, 32] := by decide
    rw [this]
    simp
  rw [e4, splitColon_append _ _ (by decide)]
  have e5 : splitColon (32 :: natDigits n) = [32 :: natDigits n] := by
    apply splitColon_no
    intro hm
    rcases List.mem_cons.mp hm with hm | hm
    · omega
    · have := natDigits_digit n 58 hm; omega
  rw [e5]
  have e6 : pyStrip (32 :: natDigits n) = natDigits n := by
    rw [pyStrip_space]
    intro c hc
    exact digit_not_stripWs c (hdig c hc)
  show pyInt (pyStrip (32 :: natDigits n)) = some (n : Int)
  rw [e6, pyInt_natDigits]

/-! ### Escaped-string round trip -/

theorem hexDigit_range (d : Nat) (h : d < 16) : 48 ≤ hexDigit d ∧ hexDigit d ≤ 102 := by
  simp only [hexDigit]
  by_cases h10 : d < 10 <;> simp [h10] <;> omega

theorem hexVal_hexDigit (d : Nat) (h : d < 16) : hexVal (hexDigit d) = some d := by
  interval_cases d <;> decide

theorem hexQuad_hex4 (n : Nat) (h : n < 65536) :
    hexQuad (hexDigit (n / 4096 % 16)) (hexDigit (n / 256 % 16))
      (hexDigit (n / 16 % 16)) (hexDigit (n % 16)) = some n := by
  unfold hexQuad
  rw [hexVal_hexDigit _ (by omega), hexVal_hexDigit _ (by omega),
      hexVal_hexDigit _ (by omega), hexVal_hexDigit _ (by omega)]
  simp only [Option.bind_eq_bind, Option.some_bind]
  congr 1
  omega

theorem escapeChar_ne_nil (c : Nat) : escapeChar c ≠ [] := by
  unfold escapeChar
  repeat' split
  all_goals simp [hex4]

theorem escapeChar_range (c : Nat) : ∀ x ∈ escapeChar c, 32 ≤ x ∧ x ≤ 126 := by
  have hhex : ∀ m : Nat, ∀ x ∈ hex4 m, 32 ≤ x ∧ x ≤ 126 := by
    intro m x hx
    simp only [hex4, List.mem_cons, List.not_mem_nil, or_false] at hx
    rcases hx with h | h | h | h
    all_goals (subst h; first
      | (have hr := hexDigit_range (m / 4096 % 16) (by omega); omega)
      | (have hr := hexDigit_range (m / 256 % 16) (by omega); omega)
      | (have hr := hexDigit_range (m / 16 % 16) (by omega); omega)
      | (have hr := hexDigit_range (m % 16) (by omega); omega))
  intro x hx
  unfold escapeChar at hx
  split at hx
  · simp at hx; omega
  · split at hx
    · simp at hx; omega
    · split at hx
      · simp at hx; omega
      · split at hx
        · simp at hx; omega
        · split at hx
          · simp at hx; omega
          · split at hx
            · simp at hx; omega
            · split at hx
              · simp at hx; omega
              · split at hx
                · rename_i hrange
                  simp at hx; omega
                · split at hx
                  · simp only [List.mem_cons] at hx
                    rcases hx with h | h | h
                    · omega
                    · omega
                    · exact hhex c x h
                  · simp only [List.mem_append, List.mem_cons] at hx
                    rcases hx with (h | h | h) | (h | h | h)
                    · omega
                    · omega
                    · exact hhex _ x h
                    · omega
                    · omega
                    · exact hhex _ x h

theorem flatMap_escape_len (s : List Nat) : s.length ≤ (s.flatMap escapeChar).length := by
  induction s with
  | nil => simp
  | cons c r ih =>
    simp only [List.flatMap_cons, List.length_append, List.length_cons]
    have h1 : 1 ≤ (escapeChar c).length := by
      cases h : escapeChar c with
      | nil => exact absurd h (escapeChar_ne_nil c)
      | cons a t => simp
    omega

theorem scanU_single (a b c d : Nat) (tail : List Nat) (h : Nat)
    (hq : hexQuad a b c d = some h) (hns : ¬(55296 ≤ h ∧ h ≤ 56319)) :
    scanU (a :: b :: c :: d :: tail) = some (h, tail) := by
  simp [scanU, hq, hns]

theorem scanU_pair (a b c d a2 b2 c2 d2 : Nat) (tail : List Nat) (h l : Nat)
    (hq : hexQuad a b c d = some h) (hh : 55296 ≤ h ∧ h ≤ 56319)
    (hq2 : hexQuad a2 b2 c2 d2 = some l) (hl : 56320 ≤ l ∧ l ≤ 57343) :
    scanU (a :: b :: c :: d :: 92 :: 117 :: a2 :: b2 :: c2 :: d2 :: tail)
      = some (65536 + (h - 55296) * 1024 + (l - 56320), tail) := by
  simp [scanU, hq, hh, hq2, hl]

theorem parseStringBody_escU (fuel : Nat) (acc payload tail : List Nat) (c : Nat)
    (h : scanU (payload ++ tail) = some (c, tail)) :
    parseStringBody (fuel + 1) acc (92 :: 117 :: payload ++ tail)
      = parseStringBody fuel (c :: acc) tail := by
  simp only [List.cons_append, parseStringBody]
  norm_num
  rw [h]

theorem parseStringBody_escChar (c : Nat) (hv : validCP c = true) (fuel : Nat)
    (acc tail : List Nat) :
    parseStringBody (fuel + 1) acc (escapeChar c ++ tail) = parseStringBody fuel (c :: acc) tail := by
  simp only [validCP, Bool.and_eq_true, Bool.not_eq_true', Bool.and_eq_false_iff,
    decide_eq_true_eq, decide_eq_false_iff_not] at hv
  obtain ⟨hlt, hsur⟩ := hv
  by_cases h34 : c = 34
  · subst h34; simp [escapeChar, parseStringBody, escTable]
  · by_cases h92 : c = 92
    · subst h92; simp [escapeChar, parseStringBody, escTable]
    · by_cases h8 : c = 8
      · subst h8; simp [escapeChar, parseStringBody, escTable]
      · by_cases h9 : c = 9
        · subst h9; simp [escapeChar, parseStringBody, escTable]
        · by_cases h10 : c = 10
          · subst h10; simp [escapeChar, parseStringBody, escTable]
          · by_cases h12 : c = 12
            · subst h12; simp [escapeChar, parseStringBody, escTable]
            · by_cases h13 : c = 13
              · subst h13; simp [escapeChar, parseStringBody, escTable]
              · by_cases hpr : 32 ≤ c ∧ c ≤ 126
                · have he : escapeChar c = [c] := by
                    unfold escapeChar
                    rw [if_neg h34, if_neg h92, if_neg h8, if_neg h9, if_neg h10,
                        if_neg h12, if_neg h13, if_pos hpr]
                  rw [he]
                  simp only [List.cons_append, List.nil_append, parseStringBody]
                  rw [if_neg h34, if_neg h92, if_neg (by omega : ¬(c < 32))]
                  simp
                · by_cases hbmp : c < 65536
                  · have he : escapeChar c = 92 :: 117 :: hex4 c := by
                      unfold escapeChar
                      rw [if_neg h34, if_neg h92, if_neg h8, if_neg h9, if_neg h10,
                          if_neg h12, if_neg h13, if_neg hpr, if_pos hbmp]
                    have e1 : escapeChar c ++ tail = 92 :: 117 :: hex4 c ++ tail := by
                      rw [he]
                    rw [e1]
                    apply parseStringBody_escU
                    simp only [hex4, List.cons_append, List.nil_append]
                    exact scanU_single _ _ _ _ tail c (hexQuad_hex4 c hbmp) (by omega)
                  · have hH : 55296 + (c - 65536) / 1024 < 65536 := by omega
                    have hL : 56320 + (c - 65536) % 1024 < 65536 := by omega
                    have he : escapeChar c ++ tail
                        = 92 :: 117 :: (hex4 (55296 + (c - 65536) / 1024)
                            ++ (92 :: 117 :: hex4 (56320 + (c - 65536) % 1024)) ++ tail) := by
                      unfold escapeChar
                      rw [if_neg h34, if_neg h92, if_neg h8, if_neg h9, if_neg h10,
                          if_neg h12, if_neg h13, if_neg hpr, if_neg hbmp]
                      simp
                    rw [he]
                    have e2 : hex4 (55296 + (c - 65536) / 1024)
                          ++ (92 :: 117 :: hex4 (56320 + (c - 65536) % 1024)) ++ tail
                        = (hex4 (55296 + (c - 65536) / 1024)
                            ++ (92 :: 117 :: hex4 (56320 + (c - 65536) % 1024))) ++ tail := by
                      simp
                    rw [e2]
                    apply parseStringBody_escU
                    have e3 : (hex4 (55296 + (c - 65536) / 1024)
                          ++ (92 :: 117 :: hex4 (56320 + (c - 65536) % 1024))) ++ tail
                        = hexDigit ((55296 + (c - 65536) / 1024) / 4096 % 16)
                            :: hexDigit ((55296 + (c - 65536) / 1024) / 256 % 16)
                            :: hexDigit ((55296 + (c - 65536) / 1024) / 16 % 16)
                            :: hexDigit ((55296 + (c - 65536) / 1024) % 16)
                            :: 92 :: 117
                            :: hexDigit ((56320 + (c - 65536) % 1024) / 4096 % 16)
                            :: hexDigit ((56320 + (c - 65536) % 1024) / 256 % 16)
                            :: hexDigit ((56320 + (c - 65536) % 1024) / 16 % 16)
                            :: hexDigit ((56320 + (c - 65536) % 1024) % 16) :: tail := by
                      simp [hex4]
                    rw [e3]
                    have e5 := scanU_pair _ _ _ _ _ _ _ _ tail
                        (55296 + (c - 65536) / 1024) (56320 + (c - 65536) % 1024)
                        (hexQuad_hex4 _ hH) (by omega) (hexQuad_hex4 _ hL) (by omega)
                    rw [e5]
                    have e6 : 65536 + (55296 + (c - 65536) / 1024 - 55296) * 1024
                        + (56320 + (c - 65536) % 1024 - 56320) = c := by omega
                    rw [e6]

theorem parseStringBody_dumped : ∀ (s : List Nat) (acc rest : List Nat) (fuel : Nat),
    validStr s = true → s.length < fuel →
    parseStringBody fuel acc (s.flatMap escapeChar ++ 34 :: rest)
      = some (acc.reverse ++ s, rest) := by
  intro s
  induction s with
  | nil =>
    intro acc rest fuel _ hf
    match fuel, hf with
    | f + 1, _ => simp [parseStringBody]
  | cons c s2 ih =>
    intro acc rest fuel hv hf
    simp only [validStr, List.all_cons, Bool.and_eq_true] at hv
    match fuel, hf with
    | f + 1, hf2 =>
      have e1 : (c :: s2).flatMap escapeChar ++ 34 :: rest
          = escapeChar c ++ (s2.flatMap escapeChar ++ 34 :: rest) := by
        simp [List.flatMap_cons]
      rw [e1, parseStringBody_escChar c hv.1 f acc _]
      rw [ih (c :: acc) rest f (by simp [validStr, hv.2])
            (by simp only [List.length_cons] at hf2; omega)]
      simp

/-! ### Number round trip -/

theorem takeDigits_stop (rest : List Nat) (h : numSafe rest = true) :
    takeDigits rest = ([], rest) := by
  cases rest with
  | nil => rfl
  | cons c t =>
    simp only [numSafe, Bool.not_eq_true', Bool.or_eq_false_iff] at h
    simp [takeDigits, h.1.1]

theorem takeDigits_run (ds rest : List Nat) (hds : ∀ d ∈ ds, isDigitC d = true)
    (hrest : takeDigits rest = ([], rest)) :
    takeDigits (ds ++ rest) = (ds, rest) := by
  induction ds with
  | nil => simpa using hrest
  | cons d t ih =>
    have hd := hds d (by simp)
    simp only [List.cons_append, takeDigits, hd, if_true, List.append_eq]
    rw [ih (fun x hx => hds x (by simp [hx]))]

theorem parseNumTail_digits (m : Nat) (rest : List Nat) (h : numSafe rest = true) :
    parseNumTail (natDigits m ++ rest) = some (m, rest) := by
  obtain ⟨d, t, hdt, hd⟩ := natDigits_cons m
  have hds : ∀ x ∈ natDigits m, isDigitC x = true := fun x hx => by
    have := natDigits_digit m x hx
    simp only [isDigitC, Bool.and_eq_true, decide_eq_true_eq]
    omega
  unfold parseNumTail
  rw [takeDigits_run _ _ hds (takeDigits_stop rest h), hdt]
  have hz : ¬(d = 48 ∧ t ≠ []) := by
    rintro ⟨h48, hne⟩
    subst h48
    have hm0 : m = 0 := natDigits_head48 m t hdt
    rw [hm0] at hdt
    have e0 : natDigits 0 = [48] := rfl
    rw [e0] at hdt
    simp only [List.cons.injEq] at hdt
    exact hne hdt.2.symm
  simp only [hz, if_false]
  cases rest with
  | nil => rw [← hdt, digitsVal_natDigits]
  | cons c0 r0 =>
    simp only [numSafe, Bool.not_eq_true', Bool.or_eq_false_iff,
      decide_eq_false_iff_not] at h
    show (if c0 = 46 ∨ c0 = 101 ∨ c0 = 69 then none
          else some (digitsVal (d :: t), c0 :: r0)) = some (m, c0 :: r0)
    rw [if_neg (by tauto)]
    rw [← hdt, digitsVal_natDigits]

theorem parseNumber_intDumps (n : Int) (rest : List Nat) (h : numSafe rest = true) :
    parseNumber (intDumps n ++ rest) = some (n, rest) := by
  by_cases hn : n < 0
  · have e1 : intDumps n ++ rest = 45 :: (natDigits n.natAbs ++ rest) := by
      simp [intDumps, hn]
    rw [e1]
    simp only [parseNumber, if_pos rfl]
    rw [parseNumTail_digits _ _ h]
    show some (-((n.natAbs : Nat) : Int), rest) = some (n, rest)
    rw [show -((n.natAbs : Nat) : Int) = n by omega]
  · have e1 : intDumps n ++ rest = natDigits n.natAbs ++ rest := by
      simp [intDumps, hn]
    obtain ⟨d, t, hdt, hd⟩ := natDigits_cons n.natAbs
    have hd2 := hd
    simp only [isDigitC, Bool.and_eq_true, decide_eq_true_eq] at hd2
    rw [e1, hdt]
    simp only [List.cons_append, parseNumber]
    rw [if_neg (by omega : ¬(d = 45))]
    have e3 : d :: (t ++ rest) = natDigits n.natAbs ++ rest := by
      rw [hdt]
      simp
    rw [e3, parseNumTail_digits _ _ h]
    show some (((n.natAbs : Nat) : Int), rest) = some (n, rest)
    rw [show ((n.natAbs : Nat) : Int) = n by omega]

/-! ### Heads and whitespace of serialized values -/

theorem digit_not_jWs (d : Nat) (h : isDigitC d = true) : jWs d = false := by
  simp only [isDigitC, Bool.and_eq_true, decide_eq_true_eq] at h
  simp only [jWs, Bool.or_eq_false_iff, decide_eq_false_iff_not]
  omega

theorem dumps_head (j : J) : ∃ c t, dumps j = c :: t ∧ jWs c = false ∧ c ≠ 93 := by
  cases j with
  | null => exact ⟨110, _, rfl, by decide, by decide⟩
  | bool b => cases b
              · exact ⟨102, _, rfl, by decide, by decide⟩
              · exact ⟨116, _, rfl, by decide, by decide⟩
  | num n =>
    by_cases hn : n < 0
    · refine ⟨45, natDigits n.natAbs, ?_, by decide, by decide⟩
      simp [dumps, intDumps, hn]
    · obtain ⟨d, t, hdt, hd⟩ := natDigits_cons n.natAbs
      have hd2 := hd
      simp only [isDigitC, Bool.and_eq_true, decide_eq_true_eq] at hd2
      refine ⟨d, t, ?_, digit_not_jWs d hd, by omega⟩
      simp [dumps, intDumps, hn, hdt]
  | str s => exact ⟨34, _, rfl, by decide, by decide⟩
  | arr xs => exact ⟨91, _, rfl, by decide, by decide⟩
  | obj ms => exact ⟨123, _, rfl, by decide, by decide⟩

theorem skipWs_dumps (j : J) (X : List Nat) : skipWs (dumps j ++ X) = dumps j ++ X := by
  obtain ⟨c, t, e, hw, _⟩ := dumps_head j
  rw [e]
  simp only [List.cons_append]
  exact skipWs_not c _ hw

theorem dumps_length_pos (j : J) : 0 < (dumps j).length := by
  obtain ⟨c, t, e, _, _⟩ := dumps_head j
  simp [e]

theorem dumpsElems_cons_ex (x : J) (xs : List J) :
    ∃ t2, dumpsElems (x :: xs) = dumps x ++ t2 := by
  cases xs with
  | nil => exact ⟨[], by simp [dumpsElems]⟩
  | cons y ys => exact ⟨44 :: 32 :: dumpsElems (y :: ys), rfl⟩

/-! ### One-step unfoldings of the value parser -/

theorem parseValue_step_null (f : Nat) (X : List Nat) :
    parseValue (f + 1) (110 :: 117 :: 108 :: 108 :: X) = some (J.null, X) := rfl

theorem parseValue_step_true (f : Nat) (X : List Nat) :
    parseValue (f + 1) (116 :: 114 :: 117 :: 101 :: X) = some (J.bool true, X) := rfl

theorem parseValue_step_false (f : Nat) (X : List Nat) :
    parseValue (f + 1) (102 :: 97 :: 108 :: 115 :: 101 :: X) = some (J.bool false, X) := rfl

theorem parseValue_step_str (f : Nat) (X : List Nat) :
    parseValue (f + 1) (34 :: X)
      = (match parseStringBody (X.length + 1) [] X with
         | some (s0, r2) => some (J.str s0, r2)
         | none => none) := rfl

theorem parseValue_step_arr (f : Nat) (X : List Nat) :
    parseValue (f + 1) (91 :: X)
      = (match skipWs X with
         | [] => none
         | c2 :: r2 =>
           if c2 = 93 then some (J.arr [], r2)
           else
             match parseItems f (c2 :: r2) with
             | some (xs, r3) => some (J.arr xs, r3)
             | none => none) := rfl

theorem parseValue_step_obj (f : Nat) (X : List Nat) :
    parseValue (f + 1) (123 :: X)
      = (match skipWs X with
         | [] => none
         | c2 :: r2 =>
           if c2 = 125 then some (J.obj [], r2)
           else
             match parseMembers f (c2 :: r2) with
             | some (ms, r3) => some (J.obj ms, r3)
             | none => none) := rfl

theorem parseItems_step (f : Nat) (s : List Nat) :
    parseItems (f + 1) s
      = (match parseValue f s with
         | none => none
         | some (v, r) =>
           match skipWs r with
           | 93 :: r2 => some ([v], r2)
           | 44 :: r2 =>
             (match parseItems f r2 with
              | some (vs, r3) => some (v :: vs, r3)
              | none => none)
           | _ => none) := rfl

theorem parseMembers_step (f : Nat) (s : List Nat) :
    parseMembers (f + 1) s
      = (match skipWs s with
         | 34 :: r =>
           (match parseStringBody (r.length + 1) [] r with
            | none => none
            | some (k, r1) =>
              match skipWs r1 with
              | 58 :: r2 =>
                (match parseValue f r2 with
                 | none => none
                 | some (v, r3) =>
                   match skipWs r3 with
                   | 125 :: r4 => some ([(k, v)], r4)
                   | 44 :: r4 =>
                     (match parseMembers f r4 with
                      | some (ms, r5) => some ((k, v) :: ms, r5)
                      | none => none)
                   | _ => none)
              | _ => none)
         | _ => none) := rfl

theorem parseValue_num_head (f : Nat) (c : Nat) (r : List Nat)
    (hw : jWs c = false) (hc : c = 45 ∨ isDigitC c = true) :
    parseValue (f + 1) (c :: r)
      = (match parseNumber (c :: r) with
         | some (n, r2) => some (J.num n, r2)
         | none => none) := by
  have hrg : c = 45 ∨ (48 ≤ c ∧ c ≤ 57) := by
    rcases hc with h | h
    · exact Or.inl h
    · simp only [isDigitC, Bool.and_eq_true, decide_eq_true_eq] at h
      exact Or.inr h
  simp only [parseValue, skipWs_not c r hw]
  rw [if_neg (by omega : ¬(c = 110)), if_neg (by omega : ¬(c = 116)),
      if_neg (by omega : ¬(c = 102)), if_neg (by omega : ¬(c = 34)),
      if_neg (by omega : ¬(c = 91)), if_neg (by omega : ¬(c = 123)), if_pos hc]

theorem parseValue_ws32 : ∀ (fuel : Nat) (s : List Nat),
    parseValue fuel (32 :: s) = parseValue fuel s := by
  intro fuel s
  cases fuel with
  | zero => rfl
  | succ f =>
    simp only [parseValue]
    rw [show skipWs (32 :: s) = skipWs s from by simp [skipWs, jWs]]

theorem parseItems_ws32 : ∀ (fuel : Nat) (s : List Nat),
    parseItems fuel (32 :: s) = parseItems fuel s := by
  intro fuel s
  cases fuel with
  | zero => rfl
  | succ f => simp only [parseItems_step, parseValue_ws32]

theorem parseMembers_ws32 : ∀ (fuel : Nat) (s : List Nat),
    parseMembers fuel (32 :: s) = parseMembers fuel s := by
  intro fuel s
  cases fuel with
  | zero => rfl
  | succ f =>
    simp only [parseMembers]
    rw [show skipWs (32 :: s) = skipWs s from by simp [skipWs, jWs]]

/-! ### Serializer/parser round trip -/

theorem parseItems_entry (f : Nat) (x : J) (Y : List Nat)
    (hval : parseValue f (dumps x ++ Y) = some (x, Y)) :
    parseItems (f + 1) (dumps x ++ Y)
      = (match skipWs Y with
         | 93 :: r2 => some ([x], r2)
         | 44 :: r2 =>
           (match parseItems f r2 with
            | some (vs, r3) => some (x :: vs, r3)
            | none => none)
         | _ => none) := by
  rw [parseItems_step, hval]

theorem parseMembers_entry (f : Nat) (k : List Nat) (v : J) (Y : List Nat)
    (hk : validStr k = true)
    (hval : parseValue f (dumps v ++ Y) = some (v, Y)) :
    parseMembers (f + 1) (dumpStr k ++ 58 :: 32 :: (dumps v ++ Y))
      = (match skipWs Y with
         | 125 :: r4 => some ([(k, v)], r4)
         | 44 :: r4 =>
           (match parseMembers f r4 with
            | some (ms, r5) => some ((k, v) :: ms, r5)
            | none => none)
         | _ => none) := by
  have e1 : dumpStr k ++ 58 :: 32 :: (dumps v ++ Y)
      = 34 :: (k.flatMap escapeChar ++ 34 :: (58 :: 32 :: (dumps v ++ Y))) := by
    simp [dumpStr]
  rw [parseMembers_step, e1]
  have hklen : k.length
      < (k.flatMap escapeChar ++ 34 :: (58 :: 32 :: (dumps v ++ Y))).length + 1 := by
    have := flatMap_escape_len k
    simp only [List.length_append, List.length_cons]
    omega
  show (match parseStringBody
          ((k.flatMap escapeChar ++ 34 :: (58 :: 32 :: (dumps v ++ Y))).length + 1) []
          (k.flatMap escapeChar ++ 34 :: (58 :: 32 :: (dumps v ++ Y))) with
        | none => none
        | some (k2, r1) =>
          match skipWs r1 with
          | 58 :: r2 =>
            (match parseValue f r2 with
             | none => none
             | some (v2, r3) =>
               match skipWs r3 with
               | 125 :: r4 => some ([(k2, v2)], r4)
               | 44 :: r4 =>
                 (match parseMembers f r4 with
                  | some (ms, r5) => some ((k2, v2) :: ms, r5)
                  | none => none)
               | _ => none)
          | _ => none) = _
  rw [parseStringBody_dumped k [] (58 :: 32 :: (dumps v ++ Y)) _ hk hklen]
  show (match parseValue f (32 :: (dumps v ++ Y)) with
        | none => none
        | some (v2, r3) =>
          match skipWs r3 with
          | 125 :: r4 => some ([(k, v2)], r4)
          | 44 :: r4 =>
            (match parseMembers f r4 with
             | some (ms, r5) => some ((k, v2) :: ms, r5)
             | none => none)
          | _ => none) = _
  rw [parseValue_ws32, hval]

mutual
theorem rt_val : ∀ (j : J) (fuel : Nat) (rest : List Nat),
    validJ j = true → (dumps j).length < fuel → numSafe rest = true →
    parseValue fuel (dumps j ++ rest) = some (j, rest)
  | .null, fuel, rest, _, hf, _ => by
    match fuel, hf with
    | f + 1, _ => exact parseValue_step_null f rest
  | .bool true, fuel, rest, _, hf, _ => by
    match fuel, hf with
    | f + 1, _ => exact parseValue_step_true f rest
  | .bool false, fuel, rest, _, hf, _ => by
    match fuel, hf with
    | f + 1, _ => exact parseValue_step_false f rest
  | .num n, fuel, rest, _, hf, hr => by
    match fuel, hf with
    | f + 1, _ =>
      by_cases hn : n < 0
      · have e1 : dumps (J.num n) ++ rest = 45 :: (natDigits n.natAbs ++ rest) := by
          simp [dumps, intDumps, hn]
        rw [e1, parseValue_num_head f 45 _ (by decide) (Or.inl rfl)]
        rw [show (45 : Nat) :: (natDigits n.natAbs ++ rest) = intDumps n ++ rest by
              simp [intDumps, hn]]
        rw [parseNumber_intDumps n rest hr]
      · obtain ⟨d, t, hdt, hd⟩ := natDigits_cons n.natAbs
        have e1 : dumps (J.num n) ++ rest = d :: (t ++ rest) := by
          simp [dumps, intDumps, hn, hdt]
        rw [e1, parseValue_num_head f d _ (digit_not_jWs d hd) (Or.inr hd)]
        rw [show d :: (t ++ rest) = intDumps n ++ rest by simp [intDumps, hn, hdt]]
        rw [parseNumber_intDumps n rest hr]
  | .str s, fuel, rest, hv, hf, _ => by
    match fuel, hf with
    | f + 1, _ =>
      have e1 : dumps (J.str s) ++ rest = 34 :: (s.flatMap escapeChar ++ 34 :: rest) := by
        simp [dumps, dumpStr]
      rw [e1, parseValue_step_str f _]
      have hlen : s.length < (s.flatMap escapeChar ++ 34 :: rest).length + 1 := by
        have := flatMap_escape_len s
        simp only [List.length_append, List.length_cons]
        omega
      rw [parseStringBody_dumped s [] rest _ (by simpa [validJ] using hv) hlen]
      rfl
  | .arr [], fuel, rest, _, hf, _ => by
    match fuel, hf with
    | f + 1, _ =>
      show parseValue (f + 1) (91 :: 93 :: rest) = some (J.arr [], rest)
      rw [parseValue_step_arr]
      rfl
  | .arr (x :: xs), fuel, rest, hv, hf, _ => by
    match fuel, hf with
    | f + 1, hf2 =>
      have e4 : (dumps (J.arr (x :: xs))).length = (dumpsElems (x :: xs)).length + 2 := by
        show ((91 :: dumpsElems (x :: xs)) ++ [93]).length = _
        simp
      rw [e4] at hf2
      have e1 : dumps (J.arr (x :: xs)) ++ rest
          = 91 :: (dumpsElems (x :: xs) ++ 93 :: rest) := by
        show ((91 :: dumpsElems (x :: xs)) ++ [93]) ++ rest = _
        simp
      rw [e1, parseValue_step_arr f _]
      obtain ⟨t2, he2⟩ := dumpsElems_cons_ex x xs
      obtain ⟨c, t, e, hw, h93⟩ := dumps_head x
      have e3 : dumpsElems (x :: xs) ++ 93 :: rest = c :: (t ++ t2 ++ 93 :: rest) := by
        rw [he2, e]
        simp
      rw [e3, skipWs_not c _ hw]
      show (if c = 93 then some (J.arr [], t ++ t2 ++ 93 :: rest)
            else
              match parseItems f (c :: (t ++ t2 ++ 93 :: rest)) with
              | some (xs2, r3) => some (J.arr xs2, r3)
              | none => none) = some (J.arr (x :: xs), rest)
      rw [if_neg h93, ← e3,
          rt_items x xs f rest (by simpa [validJ] using hv) (by omega)]
  | .obj [], fuel, rest, _, hf, _ => by
    match fuel, hf with
    | f + 1, _ =>
      show parseValue (f + 1) (123 :: 125 :: rest) = some (J.obj [], rest)
      rw [parseValue_step_obj]
      rfl
  | .obj ((k, v) :: ms), fuel, rest, hv, hf, _ => by
    match fuel, hf with
    | f + 1, hf2 =>
      have e4 : (dumps (J.obj ((k, v) :: ms))).length
          = (dumpsMembers ((k, v) :: ms)).length + 2 := by
        show ((123 :: dumpsMembers ((k, v) :: ms)) ++ [125]).length = _
        simp
      rw [e4] at hf2
      have e1 : dumps (J.obj ((k, v) :: ms)) ++ rest
          = 123 :: (dumpsMembers ((k, v) :: ms) ++ 125 :: rest) := by
        show ((123 :: dumpsMembers ((k, v) :: ms)) ++ [125]) ++ rest = _
        simp
      rw [e1, parseValue_step_obj f _]
      have hz : ∃ z, dumpsMembers ((k, v) :: ms) = 34 :: z := by
        cases ms with
        | nil => exact ⟨k.flatMap escapeChar ++ [34] ++ 58 :: 32 :: dumps v, by
            simp [dumpsMembers, dumpStr]⟩
        | cons m ms2 => exact ⟨k.flatMap escapeChar ++ [34]
              ++ 58 :: 32 :: (dumps v ++ 44 :: 32 :: dumpsMembers (m :: ms2)), by
            simp [dumpsMembers, dumpStr]⟩
      obtain ⟨z, hzz⟩ := hz
      have e3 : dumpsMembers ((k, v) :: ms) ++ 125 :: rest = 34 :: (z ++ 125 :: rest) := by
        rw [hzz]
        simp
      rw [e3]
      show (if (34 : Nat) = 125 then some (J.obj [], z ++ 125 :: rest)
            else
              match parseMembers f (34 :: (z ++ 125 :: rest)) with
              | some (ms2, r3) => some (J.obj ms2, r3)
              | none => none) = some (J.obj ((k, v) :: ms), rest)
      rw [if_neg (by decide), ← e3,
          rt_members k v ms f rest (by simpa [validJ] using hv) (by omega)]
theorem rt_items : ∀ (x : J) (xs : List J) (fuel : Nat) (rest : List Nat),
    validElems (x :: xs) = true → (dumpsElems (x :: xs)).length + 1 < fuel →
    parseItems fuel (dumpsElems (x :: xs) ++ 93 :: rest) = some (x :: xs, rest)
  | x, [], fuel, rest, hv, hf => by
    match fuel, hf with
    | f + 1, hf2 =>
      have hv1 : validJ x = true := by
        simp only [validElems, Bool.and_eq_true] at hv
        exact hv.1
      have e0 : (dumpsElems [x]).length = (dumps x).length := by
        simp [dumpsElems]
      rw [e0] at hf2
      have e1 : dumpsElems [x] ++ 93 :: rest = dumps x ++ 93 :: rest := by
        simp [dumpsElems]
      rw [e1, parseItems_entry f x (93 :: rest)
            (rt_val x f (93 :: rest) hv1 (by omega) rfl)]
      rfl
  | x, y :: ys, fuel, rest, hv, hf => by
    match fuel, hf with
    | f + 1, hf2 =>
      have hvs : validJ x = true ∧ validElems (y :: ys) = true := by
        simp only [validElems, Bool.and_eq_true] at hv
        refine ⟨hv.1, ?_⟩
        simp only [validElems, Bool.and_eq_true]
        exact hv.2
      have e0 : (dumpsElems (x :: y :: ys)).length
          = (dumps x).length + 2 + (dumpsElems (y :: ys)).length := by
        show (dumps x ++ 44 :: 32 :: dumpsElems (y :: ys)).length = _
        simp
        omega
      rw [e0] at hf2
      have e1 : dumpsElems (x :: y :: ys) ++ 93 :: rest
          = dumps x ++ (44 :: 32 :: (dumpsElems (y :: ys) ++ 93 :: rest)) := by
        show (dumps x ++ 44 :: 32 :: dumpsElems (y :: ys)) ++ 93 :: rest = _
        simp
      rw [e1, parseItems_entry f x _
            (rt_val x f (44 :: 32 :: (dumpsElems (y :: ys) ++ 93 :: rest)) hvs.1
              (by omega) rfl)]
      show (match parseItems f (32 :: (dumpsElems (y :: ys) ++ 93 :: rest)) with
            | some (vs, r3) => some (x :: vs, r3)
            | none => none) = some (x :: y :: ys, rest)
      rw [parseItems_ws32, rt_items y ys f rest hvs.2 (by omega)]
theorem rt_members : ∀ (k : List Nat) (v : J) (ms : List (List Nat × J)) (fuel : Nat)
    (rest : List Nat),
    validMembers ((k, v) :: ms) = true → (dumpsMembers ((k, v) :: ms)).length + 1 < fuel →
    parseMembers fuel (dumpsMembers ((k, v) :: ms) ++ 125 :: rest) = some ((k, v) :: ms, rest)
  | k, v, [], fuel, rest, hv, hf => by
    match fuel, hf with
    | f + 1, hf2 =>
      have hvv : validStr k = true ∧ validJ v = true := by
        simp only [validMembers, Bool.and_eq_true] at hv
        exact ⟨hv.1.1.1, hv.1.1.2⟩
      have e0 : (dumpsMembers [(k, v)]).length
          = (dumpStr k).length + 2 + (dumps v).length := by
        show (dumpStr k ++ 58 :: 32 :: dumps v).length = _
        simp
        omega
      rw [e0] at hf2
      have e1 : dumpsMembers [(k, v)] ++ 125 :: rest
          = dumpStr k ++ 58 :: 32 :: (dumps v ++ 125 :: rest) := by
        show (dumpStr k ++ 58 :: 32 :: dumps v) ++ 125 :: rest = _
        simp
      rw [e1, parseMembers_entry f k v (125 :: rest) hvv.1
            (rt_val v f (125 :: rest) hvv.2 (by omega) rfl)]
      rfl
  | k, v, (k2, v2) :: ms2, fuel, rest, hv, hf => by
    match fuel, hf with
    | f + 1, hf2 =>
      have hvv : validStr k = true ∧ validJ v = true
          ∧ validMembers ((k2, v2) :: ms2) = true := by
        simp only [validMembers, Bool.and_eq_true] at hv
        exact ⟨hv.1.1.1, hv.1.1.2, by
          simp only [validMembers, Bool.and_eq_true]
          exact hv.2⟩
      have e0 : (dumpsMembers ((k, v) :: (k2, v2) :: ms2)).length
          = (dumpStr k).length + 2 + (dumps v).length + 2
            + (dumpsMembers ((k2, v2) :: ms2)).length := by
        show (dumpStr k ++ 58 :: 32 :: dumps v
              ++ 44 :: 32 :: dumpsMembers ((k2, v2) :: ms2)).length = _
        simp
        omega
      rw [e0] at hf2
      have e1 : dumpsMembers ((k, v) :: (k2, v2) :: ms2) ++ 125 :: rest
          = dumpStr k ++ 58 :: 32
              :: (dumps v ++ (44 :: 32 :: (dumpsMembers ((k2, v2) :: ms2) ++ 125 :: rest))) := by
        show (dumpStr k ++ 58 :: 32 :: dumps v
              ++ 44 :: 32 :: dumpsMembers ((k2, v2) :: ms2)) ++ 125 :: rest = _
        simp
      rw [e1, parseMembers_entry f k v _ hvv.1
            (rt_val v f (44 :: 32 :: (dumpsMembers ((k2, v2) :: ms2) ++ 125 :: rest))
              hvv.2.1 (by omega) rfl)]
      show (match parseMembers f (32 :: (dumpsMembers ((k2, v2) :: ms2) ++ 125 :: rest)) with
            | some (ms3, r5) => some ((k, v) :: ms3, r5)
            | none => none) = some ((k, v) :: (k2, v2) :: ms2, rest)
      rw [parseMembers_ws32, rt_members k2 v2 ms2 f rest hvv.2.2 (by omega)]
end

/-! ### loads of dumps, ASCII range of dumps, and the frame codec -/

theorem loads_dumps (j : J) (hv : validJ j = true) : loads (dumps j) = some j := by
  unfold loads
  have h := rt_val j ((dumps j).length + 1) [] hv (by omega) rfl
  rw [List.append_nil] at h
  rw [h]
  rfl

theorem intDumps_ascii (n : Int) : ∀ c ∈ intDumps n, 32 ≤ c ∧ c ≤ 126 := by
  intro c h
  simp only [intDumps, List.mem_append] at h
  rcases h with h | h
  · by_cases hn : n < 0
    · simp [hn] at h
      omega
    · simp [hn] at h
  · have := natDigits_digit n.natAbs c h
    omega

theorem dumpStr_ascii (s : List Nat) : ∀ c ∈ dumpStr s, 32 ≤ c ∧ c ≤ 126 := by
  intro c h
  have h2 : c = 34 ∨ ∃ a, a ∈ s ∧ c ∈ escapeChar a := by
    simp only [dumpStr, List.mem_cons, List.mem_append, List.mem_singleton,
      List.mem_flatMap] at h
    tauto
  rcases h2 with h2 | ⟨a, -, hc⟩
  · omega
  · exact escapeChar_range a c hc

mutual
theorem dumps_ascii : ∀ (j : J) (c : Nat), c ∈ dumps j → 32 ≤ c ∧ c ≤ 126
  | .null, c, h => by
    simp only [dumps] at h
    simp at h
    omega
  | .bool true, c, h => by
    simp only [dumps] at h
    simp at h
    omega
  | .bool false, c, h => by
    simp only [dumps] at h
    simp at h
    omega
  | .num n, c, h => by
    simp only [dumps] at h
    exact intDumps_ascii n c h
  | .str s, c, h => by
    simp only [dumps] at h
    exact dumpStr_ascii s c h
  | .arr xs, c, h => by
    have h2 : c = 91 ∨ c = 93 ∨ c ∈ dumpsElems xs := by
      simp only [dumps, List.mem_cons, List.mem_append, List.mem_singleton] at h
      tauto
    rcases h2 with h2 | h2 | h2
    · omega
    · omega
    · exact dumpsElems_ascii xs c h2
  | .obj ms, c, h => by
    have h2 : c = 123 ∨ c = 125 ∨ c ∈ dumpsMembers ms := by
      simp only [dumps, List.mem_cons, List.mem_append, List.mem_singleton] at h
      tauto
    rcases h2 with h2 | h2 | h2
    · omega
    · omega
    · exact dumpsMembers_ascii ms c h2

theorem dumpsElems_ascii : ∀ (xs : List J) (c : Nat), c ∈ dumpsElems xs → 32 ≤ c ∧ c ≤ 126
  | [], c, h => by simp [dumpsElems] at h
  | [x], c, h => by
    simp only [dumpsElems] at h
    exact dumps_ascii x c h
  | x :: y :: xs, c, h => by
    have h2 : c ∈ dumps x ∨ c = 44 ∨ c = 32 ∨ c ∈ dumpsElems (y :: xs) := by
      simp only [dumpsElems, List.mem_append, List.mem_cons] at h
      tauto
    rcases h2 with h2 | h2 | h2 | h2
    · exact dumps_ascii x c h2
    · omega
    · omega
    · exact dumpsElems_ascii (y :: xs) c h2

theorem dumpsMembers_ascii : ∀ (ms : List (List Nat × J)) (c : Nat),
    c ∈ dumpsMembers ms → 32 ≤ c ∧ c ≤ 126
  | [], c, h => by simp [dumpsMembers] at h
  | [(k, v)], c, h => by
    have h2 : c ∈ dumpStr k ∨ c = 58 ∨ c = 32 ∨ c ∈ dumps v := by
      simp only [dumpsMembers, List.mem_append, List.mem_cons] at h
      tauto
    rcases h2 with h2 | h2 | h2 | h2
    · exact dumpStr_ascii k c h2
    · omega
    · omega
    · exact dumps_ascii v c h2
  | (k, v) :: m :: ms, c, h => by
    have h2 : c ∈ dumpStr k ∨ c = 58 ∨ c = 32 ∨ c ∈ dumps v ∨ c = 44
        ∨ c ∈ dumpsMembers (m :: ms) := by
      simp only [dumpsMembers, List.mem_append, List.mem_cons] at h
      tauto
    rcases h2 with h2 | h2 | h2 | h2 | h2 | h2
    · exact dumpStr_ascii k c h2
    · omega
    · omega
    · exact dumps_ascii v c h2
    · omega
    · exact dumpsMembers_ascii (m :: ms) c h2
end

theorem clHeader_lt128 : ∀ c ∈ clHeader, c < 128 := by decide

theorem mkFrameStr_lt128 (m : J) : ∀ c ∈ mkFrameStr (dumps m), c < 128 := by
  intro c h
  simp only [mkFrameStr, List.mem_append] at h
  rcases h with ((h | h) | h) | h
  · exact clHeader_lt128 c h
  · have := natDigits_digit (dumps m).length c h
    omega
  · simp at h
    omega
  · have := dumps_ascii m c h
    omega

theorem encodeMessage_eq (m : J) : encodeMessage m = mkFrameStr (dumps m) := by
  unfold encodeMessage
  exact utf8Encode_ascii _ (mkFrameStr_lt128 m)

theorem readHeaders_encode (m : J) (X : List Nat) :
    readHeaders (encodeMessage m ++ X)
      = some ((clHeader ++ natDigits (dumps m).length) ++ [13, 10, 13, 10],
              dumps m ++ X) := by
  have h10 : (10 : Nat) ∉ clHeader ++ natDigits (dumps m).length := by
    intro hm
    rcases List.mem_append.mp hm with hm | hm
    · revert hm
      decide
    · have := natDigits_digit (dumps m).length 10 hm
      omega
  rw [encodeMessage_eq]
  have e : mkFrameStr (dumps m) ++ X
      = (clHeader ++ natDigits (dumps m).length) ++ [13, 10, 13, 10] ++ (dumps m ++ X) := by
    unfold mkFrameStr
    simp
  rw [e, readHeaders_block _ _ h10]

theorem frameHdr_decode (n : Nat) :
    utf8Decode ((clHeader ++ natDigits n) ++ [13, 10, 13, 10])
      = some ((clHeader ++ natDigits n) ++ [13, 10, 13, 10]) := by
  apply utf8Decode_ascii
  intro c h
  rcases List.mem_append.mp h with h | h
  · rcases List.mem_append.mp h with h | h
    · exact clHeader_lt128 c h
    · have := natDigits_digit n c h
      omega
  · simp at h
    omega

theorem dumps_decode (m : J) : utf8Decode (dumps m) = some (dumps m) :=
  utf8Decode_ascii _ (fun c hc => by have := dumps_ascii m c hc; omega)

theorem decodeOneFrame_encodeMessage (m : J) (hv : validJ m = true) :
    decodeOneFrame (encodeMessage m) = some m := by
  have h1 : readHeaders (encodeMessage m)
      = some ((clHeader ++ natDigits (dumps m).length) ++ [13, 10, 13, 10], dumps m) := by
    have := readHeaders_encode m []
    simpa using this
  have h2 := frameHdr_decode (dumps m).length
  have h3 := clientCL_header (dumps m).length
  have hpos : (0 : Int) < ((dumps m).length : Int) := by
    exact_mod_cast dumps_length_pos m
  have htn : (((dumps m).length : Nat) : Int).toNat = (dumps m).length := by omega
  have e3 : clientContentLength (splitCRLF ((clHeader ++ natDigits (dumps m).length)
      ++ [13, 10, 13, 10])) = some (((dumps m).length : Nat) : Int) := by
    rw [show (clHeader ++ natDigits (dumps m).length) ++ [13, 10, 13, 10]
        = clHeader ++ natDigits (dumps m).length ++ [13, 10, 13, 10] from rfl]
    exact h3
  simp only [decodeOneFrame, h1, h2, e3, hpos, if_true, htn, List.take_length,
    dumps_decode m, loads_dumps m hv]

theorem readStep_frame (m : J) (hv : validJ m = true) (X : List Nat) (st : CState) :
    readStep (encodeMessage m ++ X) st
      = some (X, resolveMsg m { st with loadsAttempts := st.loadsAttempts + 1 }) := by
  have h1 := readHeaders_encode m X
  have h2 := frameHdr_decode (dumps m).length
  have hpos : (0 : Int) < ((dumps m).length : Int) := by
    exact_mod_cast dumps_length_pos m
  have htn : (((dumps m).length : Nat) : Int).toNat = (dumps m).length := by omega
  have e3 : clientContentLength (splitCRLF ((clHeader ++ natDigits (dumps m).length)
      ++ [13, 10, 13, 10])) = some (((dumps m).length : Nat) : Int) := by
    rw [show (clHeader ++ natDigits (dumps m).length) ++ [13, 10, 13, 10]
        = clHeader ++ natDigits (dumps m).length ++ [13, 10, 13, 10] from rfl]
    exact clientCL_header (dumps m).length
  have htake : (dumps m ++ X).take (dumps m).length = dumps m := List.take_left _ _
  have hdrop : (dumps m ++ X).drop (dumps m).length = X := List.drop_left _ _
  simp only [readStep, h1, h2, e3, hpos, if_true, htn, htake, hdrop,
    dumps_decode m, loads_dumps m hv]

theorem read_stream_frame (m : J) (hv : validJ m = true) (fuel : Nat) (X : List Nat)
    (st : CState) :
    read_stream (fuel + 1) (encodeMessage m ++ X) st
      = read_stream fuel X (resolveMsg m { st with loadsAttempts := st.loadsAttempts + 1 }) := by
  show (match readStep (encodeMessage m ++ X) st with
        | none => st
        | some p => read_stream fuel p.1 p.2) = _
  rw [readStep_frame m hv X st]

theorem readStep_badLen (X : List Nat) (st : CState) :
    readStep (badLenHdr ++ X) st = some (X, { st with errorLogs := st.errorLogs + 1 }) := by
  have h1 : readHeaders (badLenHdr ++ X) = some (badLenHdr, X) := by
    have e : badLenHdr ++ X = S ("Content-Length: abc") ++ [13, 10, 13, 10] ++ X := by
      simp [badLenHdr]
    rw [e, readHeaders_block _ _ (by decide)]
    rfl
  unfold readStep
  rw [h1]
  rfl

theorem readStep_noLen (X : List Nat) (st : CState) :
    readStep (noLenHdr ++ X) st = some (X, st) := by
  have h1 : readHeaders (noLenHdr ++ X) = some (noLenHdr, X) := by
    have e : noLenHdr ++ X = S ("X-Powered-By: node") ++ [13, 10, 13, 10] ++ X := by
      simp [noLenHdr]
    rw [e, readHeaders_block _ _ (by decide)]
    rfl
  unfold readStep
  rw [h1]
  rfl

theorem readStep_zeroLen (X : List Nat) (st : CState) :
    readStep (zeroLenHdr ++ X) st = some (X, st) := by
  have h1 : readHeaders (zeroLenHdr ++ X) = some (zeroLenHdr, X) := by
    have e : zeroLenHdr ++ X = S ("Content-Length: 0") ++ [13, 10, 13, 10] ++ X := by
      simp [zeroLenHdr]
    rw [e, readHeaders_block _ _ (by decide)]
    rfl
  unfold readStep
  rw [h1]
  rfl

theorem read_stream_badLen (fuel : Nat) (X : List Nat) (st : CState) :
    read_stream (fuel + 1) (badLenHdr ++ X) st
      = read_stream fuel X { st with errorLogs := st.errorLogs + 1 } := by
  show (match readStep (badLenHdr ++ X) st with
        | none => st
        | some p => read_stream fuel p.1 p.2) = _
  rw [readStep_badLen]

theorem read_stream_noLen (fuel : Nat) (X : List Nat) (st : CState) :
    read_stream (fuel + 1) (noLenHdr ++ X) st = read_stream fuel X st := by
  show (match readStep (noLenHdr ++ X) st with
        | none => st
        | some p => read_stream fuel p.1 p.2) = _
  rw [readStep_noLen]

theorem read_stream_zeroLen (fuel : Nat) (X : List Nat) (st : CState) :
    read_stream (fuel + 1) (zeroLenHdr ++ X) st = read_stream fuel X st := by
  show (match readStep (zeroLenHdr ++ X) st with
        | none => st
        | some p => read_stream fuel p.1 p.2) = _
  rw [readStep_zeroLen]

theorem read_stream_nil (fuel : Nat) (st : CState) : read_stream fuel [] st = st := by
  cases fuel with
  | zero => rfl
  | succ f =>
    show (match readStep [] st with
          | none => st
          | some p => read_stream f p.1 p.2) = st
    rw [show readStep [] st = none from rfl]

/-! ### The reader loop never touches the writer-side state -/

theorem resolveMsg_env (m : J) (st : CState) : envObs (resolveMsg m st) = envObs st := by
  unfold resolveMsg
  split
  · split
    · split
      · rfl
      · rfl
    · rfl
  · rfl

theorem readStep_env (s : List Nat) (st : CState) (s2 : List Nat) (st2 : CState)
    (h : readStep s st = some (s2, st2)) : envObs st2 = envObs st := by
  unfold readStep at h
  repeat' split at h
  all_goals first
    | exact Option.noConfusion h
    | (simp only [Option.some.injEq, Prod.mk.injEq] at h
       obtain ⟨-, h2⟩ := h
       subst h2
       first
         | rfl
         | (rw [resolveMsg_env]; rfl))

theorem read_stream_env : ∀ (fuel : Nat) (s : List Nat) (st : CState),
    envObs (read_stream fuel s st) = envObs st
  | 0, _, _ => rfl
  | fuel + 1, s, st => by
    show envObs (match readStep s st with
                 | none => st
                 | some p => read_stream fuel p.1 p.2) = envObs st
    cases h : readStep s st with
    | none => rfl
    | some p =>
      rw [read_stream_env fuel p.1 p.2]
      exact readStep_env s st p.1 p.2 h

theorem read_stream_notifEventSet (fuel : Nat) (s : List Nat) (st : CState) :
    (read_stream fuel s st).notifEventSet = st.notifEventSet := by
  have h := read_stream_env fuel s st
  simp only [envObs, Prod.mk.injEq] at h
  exact h.2.2.2.2

theorem read_stream_notifWarnLogs (fuel : Nat) (s : List Nat) (st : CState) :
    (read_stream fuel s st).notifWarnLogs = st.notifWarnLogs := by
  have h := read_stream_env fuel s st
  simp only [envObs, Prod.mk.injEq] at h
  exact h.2.2.2.1

theorem read_stream_written (fuel : Nat) (s : List Nat) (st : CState) :
    (read_stream fuel s st).written = st.written := by
  have h := read_stream_env fuel s st
  simp only [envObs, Prod.mk.injEq] at h
  exact h.1

theorem resolveMsg_respMsg (k : Int) (st : CState) (h : k ∈ st.inflight) :
    resolveMsg (respMsg k) st
      = { st with inflight := st.inflight.erase k,
                  delivered := st.delivered ++ [(k, respMsg k)] } := by
  show (if k ∈ st.inflight then
          { st with inflight := st.inflight.erase k,
                    delivered := st.delivered ++ [(k, respMsg k)] }
        else st) = _
  rw [if_pos h]

theorem send_notification_written (payload : List (List Nat × J)) (arrivals : List Nat)
    (fuel : Nat) (st : CState) :
    (send_notification payload arrivals fuel st).1.written
      = st.written ++ encodeMessage (J.obj (mkNotif payload)) := by
  simp only [send_notification]
  split
  all_goals simp [read_stream_written, encodeMessage]

/-! ### The claims -/

/-- Claim C1 (code bug): correlation fails for goto_definition.  Its payload
carries its own freshly drawn id, and send draws another: on a fresh client
the caller awaits the future registered under key 2 while the frame written
to stdin carries id 1.  A server echoing the frame's id back resolves
nothing — the response is never delivered and the in-flight entry stays,
so the caller hangs forever. -/
theorem goto_definition_misregisters :
    (goto_definition uri0 5 7 initState).1 = 2
    ∧ (goto_definition uri0 5 7 initState).2.inflight = [2]
    ∧ (goto_definition uri0 5 7 initState).2.written
        = encodeMessage (J.obj
            [(S ("jsonrpc"), J.str (S ("2.0"))),
             (S ("id"), J.num 1),
             (S ("method"), J.str (S ("textDocument/definition"))),
             (S ("params"), J.obj [
                (S ("textDocument"), J.obj [(S ("uri"), J.str uri0)]),
                (S ("position"), J.obj [(S ("line"), J.num 5),
                                        (S ("character"), J.num 7)])])])
    ∧ (read_stream 5 (encodeMessage (respMsg 1))
         (goto_definition uri0 5 7 initState).2).delivered = []
    ∧ (read_stream 5 (encodeMessage (respMsg 1))
         (goto_definition uri0 5 7 initState).2).inflight = [2] :=
  ⟨rfl, rfl, rfl, rfl, rfl⟩

/-- Claim C2 (code bug): at end-of-input the reader loop merely returns — the
state, and in particular every pending in-flight entry, is untouched.  No
entry is ever resolved with a ConnectionClosed failure (no such mechanism
exists in the code), so pending callers of send await forever. -/
theorem eof_leaves_pending_unresolved (fuel : Nat) (st : CState) :
    read_stream fuel [] st = st
    ∧ (read_stream fuel [] st).inflight = st.inflight
    ∧ (read_stream fuel [] st).delivered = st.delivered :=
  ⟨read_stream_nil fuel st,
   by rw [read_stream_nil],
   by rw [read_stream_nil]⟩

/-- Claim C3 (code bug): the notification event installed by send_notification
is never set by any code path — the readers never touch it — so the bounded
wait times out no matter what arrives during the window.  Only the non-fatal
half of the claim holds: the timeout is logged and the call returns
normally. -/
theorem notification_wait_always_times_out (payload : List (List Nat × J))
    (arrivals : List Nat) (fuel : Nat) (st : CState) :
    (send_notification payload arrivals fuel st).2 = NotifOutcome.timedOutLogged
    ∧ (send_notification payload arrivals fuel st).1.notifWarnLogs
        = st.notifWarnLogs + 1 := by
  simp only [send_notification]
  simp [read_stream_notifEventSet, read_stream_notifWarnLogs]

/-- Claim C4 (code bug): stderr does participate in correlation.  The stderr
reader runs the same resolving read_stream, so a well-formed response frame
arriving on the diagnostic stream pops and fulfils the matching in-flight
future. -/
theorem stderr_frame_resolves (k : Int) (fuel : Nat) (st : CState)
    (h : k ∈ st.inflight) :
    read_stream (fuel + 1) (encodeMessage (respMsg k)) st
      = { st with loadsAttempts := st.loadsAttempts + 1,
                  inflight := st.inflight.erase k,
                  delivered := st.delivered ++ [(k, respMsg k)] } := by
  have e : encodeMessage (respMsg k) = encodeMessage (respMsg k) ++ [] := by
    rw [List.append_nil]
  rw [e, read_stream_frame (respMsg k) rfl fuel [] st,
      resolveMsg_respMsg k { st with loadsAttempts := st.loadsAttempts + 1 } h,
      read_stream_nil]

/-- Claim C4 witness: a concrete stderr run resolving the pending hover
request. -/
theorem stderr_frame_resolves_witness :
    (1 : Int) ∈ (hover uri0 2 4 initState).2.inflight
    ∧ read_stream (0 + 1) (encodeMessage (respMsg 1)) (hover uri0 2 4 initState).2
        = { (hover uri0 2 4 initState).2 with
              loadsAttempts := (hover uri0 2 4 initState).2.loadsAttempts + 1,
              inflight := (hover uri0 2 4 initState).2.inflight.erase 1,
              delivered := (hover uri0 2 4 initState).2.delivered
                             ++ [(1, respMsg 1)] } :=
  ⟨by decide, stderr_frame_resolves 1 0 (hover uri0 2 4 initState).2 (by decide)⟩

/-- Claim C4 counterexample: two runs of a fresh client with one pending hover
request, identical except for the bytes produced on stderr, deliver different
results to the awaiting caller. -/
theorem stderr_changes_delivery :
    (read_stream 5 (encodeMessage (respMsg 1))
       (hover uri0 2 4 initState).2).delivered = [(1, respMsg 1)]
    ∧ (read_stream 5 [] (hover uri0 2 4 initState).2).delivered = []
    ∧ (read_stream 5 (encodeMessage (respMsg 1))
         (hover uri0 2 4 initState).2).inflight = []
    ∧ (read_stream 5 [] (hover uri0 2 4 initState).2).inflight = [1] :=
  ⟨rfl, rfl, rfl, rfl⟩

/-- Claim C5 (amended): nothing signals MalformedFrame and nothing terminates.
A non-numeric declared length lands in the except branch — one error print —
and the loop continues with the next frame; a header block with no declared
length at all is skipped silently, with no log; the async reader's length
parser returns 0 on both, signalling nothing. -/
theorem malformed_header_logged_and_skipped (fuel : Nat) (X : List Nat) (st : CState) :
    read_stream (fuel + 1) (badLenHdr ++ X) st
      = read_stream fuel X { st with errorLogs := st.errorLogs + 1 }
    ∧ read_stream (fuel + 1) (noLenHdr ++ X) st = read_stream fuel X st
    ∧ asyncParseContentLength badLenHdr = 0
    ∧ asyncParseContentLength noLenHdr = 0 :=
  ⟨read_stream_badLen fuel X st, read_stream_noLen fuel X st, rfl, rfl⟩

/-- Claim C5 counterexample: after a frame with a non-numeric declared length
the reader logs once and keeps reading — the next frame still resolves the
pending hover request — and a frame with no length header is skipped with no
log at all. -/
theorem malformed_header_not_fatal :
    (read_stream 5 (badLenHdr ++ encodeMessage (respMsg 1))
       (hover uri0 2 4 initState).2).errorLogs = 1
    ∧ (read_stream 5 (badLenHdr ++ encodeMessage (respMsg 1))
         (hover uri0 2 4 initState).2).delivered = [(1, respMsg 1)]
    ∧ (read_stream 5 (noLenHdr ++ encodeMessage (respMsg 1))
         (hover uri0 2 4 initState).2).errorLogs = 0
    ∧ (read_stream 5 (noLenHdr ++ encodeMessage (respMsg 1))
         (hover uri0 2 4 initState).2).delivered = [(1, respMsg 1)] :=
  ⟨rfl, rfl, rfl, rfl⟩

/-- Claim C6 (amended): a zero-length frame is consumed with the state
completely unchanged — the `content_length > 0` guard means no decode of the
empty body is ever attempted, so nothing observable distinguishes it from no
frame at all. -/
theorem zero_length_frame_skipped (fuel : Nat) (X : List Nat) (st : CState) :
    readStep (zeroLenHdr ++ X) st = some (X, st)
    ∧ read_stream (fuel + 1) (zeroLenHdr ++ X) st = read_stream fuel X st :=
  ⟨readStep_zeroLen X st, read_stream_zeroLen fuel X st⟩

/-- Claim C6 counterexample: a zero-length frame arriving at a client with one
pending request leaves the whole state untouched — no decode attempt is
counted, no error logged — and a decode of the empty body, had one been
attempted, would have failed observably. -/
theorem zero_length_no_decode_attempt :
    read_stream 2 zeroLenHdr (hover uri0 2 4 initState).2
      = (hover uri0 2 4 initState).2
    ∧ (read_stream 2 zeroLenHdr (hover uri0 2 4 initState).2).loadsAttempts = 0
    ∧ loads [] = none :=
  ⟨rfl, rfl, rfl⟩

/-- Claim C7 (amended): there is no session state and no SessionClosed — send
unconditionally frames and writes its payload in every state, the fresh
client's included, and the frame it writes is never empty. -/
theorem send_always_writes (payload : List (List Nat × J)) (st : CState) :
    (send payload st).2.written
      = st.written ++ encodeMessage (J.obj (mkRequest (st.requestId + 1) payload))
    ∧ (send payload st).2.written.length
      = st.written.length
          + (encodeMessage (J.obj (mkRequest (st.requestId + 1) payload))).length
    ∧ 0 < (encodeMessage (J.obj (mkRequest (st.requestId + 1) payload))).length := by
  refine ⟨rfl, ?_, ?_⟩
  · show (st.written ++ encodeMessage (J.obj (mkRequest (st.requestId + 1) payload))).length = _
    simp
  · rw [encodeMessage_eq]
    unfold mkFrameStr
    have hc : clHeader.length = 16 := rfl
    simp only [List.length_append]
    omega

/-- Claim C7 counterexample: on a freshly constructed (uninitialized) client a
hover request is not rejected: it writes a frame to stdin and registers its
future. -/
theorem uninitialized_send_writes :
    (hover uri0 2 4 initState).2.written ≠ []
    ∧ (hover uri0 2 4 initState).2.inflight = [1] :=
  ⟨by decide, rfl⟩

/-- Claim C8 (confirmed): the frame codec round-trips.  For every valid
message m, decoding the frame send builds for it — Content-Length header
block, blank line, UTF-8 body — with the reader's own header scan, length
parse and json.loads yields m exactly. -/
theorem frame_roundtrip (m : J) (hv : validJ m = true) :
    decodeOneFrame (encodeMessage m) = some m :=
  decodeOneFrame_encodeMessage m hv

/-- Claim C8 witness: the round trip at a concrete message whose string value
holds non-ASCII text. -/
theorem frame_roundtrip_witness :
    validJ (J.obj [(S ("method"), J.str (S ("café 🎉")))]) = true
    ∧ decodeOneFrame (encodeMessage (J.obj [(S ("method"), J.str (S ("café 🎉")))]))
        = some (J.obj [(S ("method"), J.str (S ("café 🎉")))]) :=
  ⟨by decide,
   frame_roundtrip (J.obj [(S ("method"), J.str (S ("café 🎉")))]) (by decide)⟩

/-- Claim C9 (confirmed): every frame send and send_notification write
consists of the Content-Length header, the blank line and a body whose byte
count is exactly the declared number, for every payload — json.dumps keeps
ensure_ascii, so the character count the header records equals the body's
UTF-8 byte count even when payload strings hold non-ASCII text. -/
theorem frame_length_invariant (payload : List (List Nat × J)) (arrivals : List Nat)
    (fuel : Nat) (st : CState) :
    (∃ B, (send payload st).2.written
          = st.written ++ clHeader ++ natDigits B.length ++ [13, 10, 13, 10] ++ B
        ∧ B = utf8Encode (dumps (J.obj (mkRequest (st.requestId + 1) payload))))
    ∧ (∃ B, (send_notification payload arrivals fuel st).1.written
          = st.written ++ clHeader ++ natDigits B.length ++ [13, 10, 13, 10] ++ B
        ∧ B = utf8Encode (dumps (J.obj (mkNotif payload)))) := by
  have hS : utf8Encode (dumps (J.obj (mkRequest (st.requestId + 1) payload)))
      = dumps (J.obj (mkRequest (st.requestId + 1) payload)) :=
    utf8Encode_ascii _ (fun c hc => by have := dumps_ascii _ c hc; omega)
  have hN : utf8Encode (dumps (J.obj (mkNotif payload)))
      = dumps (J.obj (mkNotif payload)) :=
    utf8Encode_ascii _ (fun c hc => by have := dumps_ascii _ c hc; omega)
  constructor
  · refine ⟨utf8Encode (dumps (J.obj (mkRequest (st.requestId + 1) payload))), ?_, rfl⟩
    show st.written ++ encodeMessage (J.obj (mkRequest (st.requestId + 1) payload)) = _
    rw [hS, encodeMessage_eq]
    unfold mkFrameStr
    simp
  · refine ⟨utf8Encode (dumps (J.obj (mkNotif payload))), ?_, rfl⟩
    rw [send_notification_written, hN, encodeMessage_eq]
    unfold mkFrameStr
    simp

/-- Claim C10 (confirmed): send registers the fresh id in the in-flight map
strictly before the single write of the request frame — the event trace is
always register-then-write — so whenever the server can have observed the
request, the registry already holds the entry. -/
theorem register_precedes_write (payload : List (List Nat × J)) (st : CState) :
    (send payload st).1 = st.requestId + 1
    ∧ (send payload st).2.inflight = st.inflight ++ [st.requestId + 1]
    ∧ (send payload st).2.trace
        = st.trace ++ [Ev.register (st.requestId + 1),
                       Ev.write (encodeMessage (J.obj (mkRequest (st.requestId + 1) payload)))] := by
  refine ⟨rfl, rfl, ?_⟩
  simp [send, get_next_id, encodeMessage]
